import Mathlib

/-!
Verification of the ray construction and path-integration engine of the
RAiDER tropospheric-delay repository (src/delay.py), as a shallow embedding.

Machine floating-point arithmetic is idealized as exact rational arithmetic
(ℚ); the geodetic/ECEF conversion collaborator (util.py, not part of the
sources) and the Euclidean norm (numpy) are abstracted into a `Geom`
structure whose fields carry the properties the spec assigns to them.
-/

/-- An ECEF position or look vector: a 3-component vector of exact rationals
(idealizing numpy float64 triples). -/
structure Vec3 where
  x : ℚ
  y : ℚ
  z : ℚ
deriving DecidableEq, Repr

instance : Add Vec3 := ⟨fun a b => ⟨a.x + b.x, a.y + b.y, a.z + b.z⟩⟩

instance : SMul ℚ Vec3 := ⟨fun c v => ⟨c * v.x, c * v.y, c * v.z⟩⟩

/-- A geodetic point: latitude, longitude (degrees) and height (meters),
one row of the `llas` batch. -/
structure LLA where
  lat : ℚ
  lon : ℚ
  ht : ℚ
deriving DecidableEq, Repr

/-- Modelled from the spec: the geometry collaborator of src/delay.py.
`util.lla2ecef`, `util.ecef2lla` (its height component `heightOf`),
`util.cosd`, `util.sind` and the constant `util.zref` live in util.py, which
is not among the sources; the spec declares the conversions pure elementwise
transforms, assumed correct, with the Zenith ray "straight up to the
reference height" (moving t meters along the local up direction raises the
geodetic height by t, and the local up vector is unit length).  The
Euclidean norm `np.linalg.norm` (numpy) is likewise abstracted as `norm3`,
since square roots leave ℚ. -/
structure Geom where
  lla2ecef : ℚ → ℚ → ℚ → Vec3
  heightOf : Vec3 → ℚ
  cosd : ℚ → ℚ
  sind : ℚ → ℚ
  zref : ℚ
  norm3 : Vec3 → ℚ
  norm3_nonneg : ∀ v, 0 ≤ norm3 v
  norm3_smul : ∀ (c : ℚ) (v : Vec3), norm3 (c • v) = |c| * norm3 v
  norm3_up : ∀ lat lon,
    norm3 ⟨cosd lat * cosd lon, cosd lat * sind lon, sind lat⟩ = 1
  height_up : ∀ lat lon h t,
    heightOf (lla2ecef lat lon h +
      t • (⟨cosd lat * cosd lon, cosd lat * sind lon, sind lat⟩ : Vec3)) = h + t

/-- Step in meters to use when integrating (`_STEP = 15` in src/delay.py). -/
def STEP : ℚ := 15

/-- Local-vertical unit direction built from latitude and longitude,
src/delay.py lines 63-65: `(cosd(lats)*cosd(lons), cosd(lats)*sind(lons),
sind(lats))`. -/
def zenithDir (g : Geom) (lat lon : ℚ) : Vec3 :=
  ⟨g.cosd lat * g.cosd lon, g.cosd lat * g.sind lon, g.sind lat⟩

/-- `np.linspace(a, b, n)`: `n = 0` gives no samples, `n = 1` gives `[a]`,
and for `n ≥ 2` the samples are `a + (b-a)*i/(n-1)`, endpoint included. -/
def linspace (a b : ℚ) (n : ℕ) : List ℚ :=
  if n ≤ 1 then (List.range n).map (fun _ => a)
  else (List.range n).map (fun i : ℕ => a + (b - a) * (i : ℚ) / ((n : ℚ) - 1))

/-- `np.trapz(ys, xs)`: trapezoidal rule over matched sample lists; with
fewer than two samples the integral is 0, as in numpy. -/
def trapz : List ℚ → List ℚ → ℚ
  | y1 :: y2 :: ys, x1 :: x2 :: xs =>
      (x2 - x1) * (y1 + y2) / 2 + trapz (y2 :: ys) (x2 :: xs)
  | _, _ => 0

/-- `_too_high(positions, zref)` (src/delay.py lines 39-51): index of the
first position whose geodetic height exceeds `zref`, or the number of
positions when none does. -/
def tooHigh (g : Geom) : List Vec3 → ℕ
  | [] => 0
  | p :: ps => if g.zref < g.heightOf p then 0 else tooHigh g ps + 1

/-- `np.ceil(length / _STEP)` cast to int (src/delay.py line 69): the sample
count of a ray. -/
def sampleSteps (length : ℚ) : ℕ :=
  (Int.ceil (length / STEP)).toNat

/-- `np.linspace(0, lengths[i], steps[i])` (src/delay.py line 77): the
evenly spaced path parameters of one ray. -/
def sampleParams (length : ℚ) : List ℚ :=
  linspace 0 length (sampleSteps length)

/-- ECEF sample positions of a ray (src/delay.py lines 78-79):
`start + t * scaled_look_vector` for each path parameter t. -/
def rayPositions (start dir : Vec3) (ts : List ℚ) : List Vec3 :=
  ts.map (fun t => start + t • dir)

/-- Per-ray output of the two-phase sampler: kept path parameters and kept
positions (the prefix below the troposphere top). -/
structure RaySamples where
  tKept : List ℚ
  posKept : List Vec3
deriving DecidableEq, Repr

/-- `look_vecs / lengths` (src/delay.py line 72): the normalized look
vector.  Rational division by zero yields 0 where numpy would produce NaN;
claim C10 shows the value is never consumed in that case. -/
def scaledLookVec (g : Geom) (v : Vec3) : Vec3 :=
  (1 / g.norm3 v) • v

/-- One iteration of the sampling loop of `_common_delay` (src/delay.py
lines 76-85), with the normalized direction passed explicitly so that its
irrelevance for zero-length rays can be stated. -/
def raySamplesWithDir (g : Geom) (pt : LLA) (v dir : Vec3) : RaySamples :=
  let length := g.norm3 v
  let start := g.lla2ecef pt.lat pt.lon pt.ht
  let tspace := linspace 0 length (sampleSteps length)
  let position := rayPositions start dir tspace
  let fhi := tooHigh g position
  ⟨tspace.take fhi, position.take fhi⟩

/-- The sampling loop of `_common_delay` with the direction it actually
uses, `look_vecs / lengths`. -/
def raySamples (g : Geom) (pt : LLA) (v : Vec3) : RaySamples :=
  raySamplesWithDir g pt v (scaledLookVec g v)

/-- The per-ray integrated delay (the value `_common_delay` stores at one
output index, src/delay.py line 103): `1e-6 * np.trapz(chunk, t_points)`. -/
def rayDelay (g : Geom) (d : Vec3 → ℚ) (pt : LLA) (v : Vec3) : ℚ :=
  let s := raySamples g pt v
  (1 / 1000000) * trapz (s.posKept.map d) s.tKept

/-- The batched body of `_common_delay` (src/delay.py lines 68-103): sample
every ray, concatenate the surviving positions, query the model once over
the concatenation, then recover each ray's chunk through the exclusive
prefix sums of the corrected step counts (`np.roll(np.cumsum(steps), 1)`
with index 0 zeroed) and integrate it.  On a zero-point batch the per-ray
loop never runs and `np.concatenate(positions_l)` (line 87) raises
ValueError ("need at least one array to concatenate"), modelled `none`;
with at least one ray the list holds at least one (possibly empty) array
and the concatenation succeeds. -/
def delaysFor (g : Geom) (d : Vec3 → ℚ) (pts : List LLA) (vs : List Vec3) :
    Option (List ℚ) :=
  if pts.isEmpty then none
  else
    let samples := (pts.zip vs).map (fun pv => raySamples g pv.1 pv.2)
    let stepsL := samples.map (fun s => s.tKept.length)
    let vals := ((samples.map RaySamples.posKept).flatten).map d
    some ((List.range pts.length).map (fun i =>
      (1 / 1000000) *
        trapz ((vals.drop ((stepsL.take i).sum)).take (stepsL.getD i 0))
          ((samples.getD i ⟨[], []⟩).tKept)))

/-- The Zenith look vectors (src/delay.py lines 63-66): local up scaled by
`_ZREF - heights`. -/
def zenithVecs (g : Geom) (pts : List LLA) : List Vec3 :=
  pts.map (fun p => (g.zref - p.ht) • zenithDir g p.lat p.lon)

/-- The look-vector argument of `_common_delay`: the `Zenith` sentinel, an
(N,3) batch of ECEF vectors (raytrace mode), or an (N,) batch of
cosine-of-incidence scalars (projection mode). -/
inductive LOS
  | zenith
  | vectors (vs : List Vec3)
  | scalars (cs : List ℚ)
deriving DecidableEq, Repr

/-- `_common_delay(delay, lats, lons, heights, look_vecs, raytrace)`
(src/delay.py lines 54-109).  When `raytrace` is false the scalars give the
correction `1 / cosd(look_vecs)` and the look vectors are replaced by the
Zenith construction; the correction multiplies the integrated delays at the
end.  The combinations on which the Python source raises a TypeError or
collapses the array shape (scalars in raytrace mode, a non-scalar input in
projection mode) are `none`. -/
def commonDelay (g : Geom) (d : Vec3 → ℚ) (pts : List LLA) (los : LOS)
    (raytrace : Bool) : Option (List ℚ) :=
  if raytrace then
    match los with
    | .zenith => delaysFor g d pts (zenithVecs g pts)
    | .vectors vs => delaysFor g d pts vs
    | .scalars _ => none
  else
    match los with
    | .scalars cs =>
        (delaysFor g d pts (zenithVecs g pts)).map
          (fun ds => List.zipWith (fun dlt c => dlt * (1 / g.cosd c)) ds cs)
    | _ => none

/-- The atmospheric model: two pure pointwise query functions (spec §6). -/
structure Weather where
  hydrostatic : Vec3 → ℚ
  wet : Vec3 → ℚ

/-- `wet_delay(weather, ...)` (src/delay.py lines 112-115). -/
def wet_delay (g : Geom) (w : Weather) (pts : List LLA) (los : LOS)
    (raytrace : Bool) : Option (List ℚ) :=
  commonDelay g w.wet pts los raytrace

/-- `hydrostatic_delay(weather, ...)` (src/delay.py lines 118-121). -/
def hydrostatic_delay (g : Geom) (w : Weather) (pts : List LLA) (los : LOS)
    (raytrace : Bool) : Option (List ℚ) :=
  commonDelay g w.hydrostatic pts los raytrace

/-- Entry `i` of `np.linspace(0, N, k + 1, dtype=int)` (src/delay.py line
195): the slice boundaries of the parallel partition, `⌊i*N/k⌋`. -/
def hindex (N k i : ℕ) : ℕ :=
  i * N / k

/-- Tag of a parallel unit of work ('hydro' or 'wet'). -/
inductive JobType
  | hydro
  | wet
deriving DecidableEq, Repr

/-- The job list of `delay_from_grid` (src/delay.py lines 188-202).
`hydro_procs = cpu_count // 2`, `wet_procs = cpu_count - hydro_procs`, and
BOTH generators read `hindices[i + 1]` although `hindices` has only
`hydro_procs + 1` entries; when `wet_procs > hydro_procs` (odd worker
count) the wet generator runs past the end of `hindices` and the Python
source raises IndexError, modelled as `none`. -/
def buildJobs (nprocs N : ℕ) : Option (List (JobType × ℕ × ℕ)) :=
  let hp := nprocs / 2
  let wp := nprocs - hp
  if wp ≤ hp then
    some (((List.range hp).map
            (fun i => (JobType.hydro, hindex N hp i, hindex N hp (i + 1))))
         ++ ((List.range wp).map
            (fun i => (JobType.wet, hindex N hp i, hindex N hp (i + 1)))))
  else none

/-- `los[start:end]` inside the parallel worker (src/delay.py lines
207-210); the Zenith sentinel is passed through unsliced. -/
def sliceLOS (los : LOS) (a b : ℕ) : LOS :=
  match los with
  | .zenith => .zenith
  | .vectors vs => .vectors ((vs.drop a).take (b - a))
  | .scalars cs => .scalars ((cs.drop a).take (b - a))

/-- The parallel worker `go(job)` (src/delay.py lines 205-218): slice the
inputs to the job's index range and run the component's delay. -/
def runJob (g : Geom) (w : Weather) (pts : List LLA) (los : LOS)
    (raytrace : Bool) : JobType × ℕ × ℕ → Option (List ℚ)
  | (.hydro, a, b) =>
      hydrostatic_delay g w ((pts.drop a).take (b - a)) (sliceLOS los a b)
        raytrace
  | (.wet, a, b) =>
      wet_delay g w ((pts.drop a).take (b - a)) (sliceLOS los a b) raytrace

/-- `_parmap(f, i)` (src/delay.py lines 135-161) in the failure-free
regime: every job is executed and its answer stored at the job's position,
so the answer list is the in-order image of the job list. -/
def runAll {α β : Type} (F : α → Option β) : List α → Option (List β)
  | [] => some []
  | a :: l => do
      let b ← F a
      let rest ← runAll F l
      pure (b :: rest)

/-- `np.concatenate` over a list of result arrays; numpy requires at least
one array. -/
def concatArrays (ls : List (List ℚ)) : Option (List ℚ) :=
  if ls.isEmpty then none else some ls.flatten

/-- `delay_from_grid(weather, llas, los, parallel, raytrace)` (src/delay.py
lines 164-234) over a flat point list, with the worker count
(`os.cpu_count()`) made explicit.  The serial branch runs the hydrostatic
then the wet computation on the whole batch; the parallel branch builds the
job partition, runs every job, and concatenates `result[:hydro_procs]` and
`result[hydro_procs:]`. -/
def delay_from_grid (g : Geom) (w : Weather) (pts : List LLA) (los : LOS)
    (parallel raytrace : Bool) (nprocs : ℕ) : Option (List ℚ × List ℚ) :=
  if parallel then do
    let jobs ← buildJobs nprocs pts.length
    let results ← runAll (runJob g w pts los raytrace) jobs
    let hydro ← concatArrays (results.take (nprocs / 2))
    let wet ← concatArrays (results.drop (nprocs / 2))
    pure (hydro, wet)
  else do
    let hydro ← hydrostatic_delay g w pts los raytrace
    let wet ← wet_delay g w pts los raytrace
    pure (hydro, wet)

/-- Errors a call can surface to the caller (Python exception kinds that
matter here). -/
inductive PyErr
  | modelError (msg : String)
  | concatNone
  | emptyConcat
  | indexError
  | valueError (msg : String)
deriving DecidableEq, Repr

/-- The atmospheric model when a query may raise (spec §7,
ModelQueryFailure): each component query returns a value or an exception
message. -/
structure WeatherE where
  hydrostatic : Vec3 → Except String ℚ
  wet : Vec3 → Except String ℚ

/-- The single batched model query `delay(positions_a)` (src/delay.py line
89) when the model may raise: the whole call raises the first query
exception. -/
def queryAll (d : Vec3 → Except String ℚ) : List Vec3 → Except String (List ℚ)
  | [] => .ok []
  | p :: ps => do
      let v ← d p
      let rest ← queryAll d ps
      pure (v :: rest)

/-- The batched body of `_common_delay` over a fallible model: identical to
`delaysFor` except that the model query can raise (wrapped `modelError`);
the zero-point batch raises the empty `np.concatenate(positions_l)`
ValueError of line 87 before any query. -/
def delaysForE (g : Geom) (d : Vec3 → Except String ℚ) (pts : List LLA)
    (vs : List Vec3) : Except PyErr (List ℚ) :=
  if pts.isEmpty then .error .emptyConcat
  else
    let samples := (pts.zip vs).map (fun pv => raySamples g pv.1 pv.2)
    let stepsL := samples.map (fun s => s.tKept.length)
    do
      let vals ← (queryAll d
        ((samples.map RaySamples.posKept).flatten)).mapError PyErr.modelError
      pure ((List.range pts.length).map (fun i =>
        (1 / 1000000) *
          trapz ((vals.drop ((stepsL.take i).sum)).take (stepsL.getD i 0))
            ((samples.getD i ⟨[], []⟩).tKept)))

/-- `_common_delay` over a fallible model. -/
def commonDelayE (g : Geom) (d : Vec3 → Except String ℚ) (pts : List LLA)
    (los : LOS) (raytrace : Bool) : Except PyErr (List ℚ) :=
  if raytrace then
    match los with
    | .zenith => delaysForE g d pts (zenithVecs g pts)
    | .vectors vs => delaysForE g d pts vs
    | .scalars _ => .error (.valueError "norm of scalar array along last axis")
  else
    match los with
    | .scalars cs =>
        (delaysForE g d pts (zenithVecs g pts)).map
          (fun ds => List.zipWith (fun dlt c => dlt * (1 / g.cosd c)) ds cs)
    | _ => .error (.valueError "cosd of non-scalar look vector")

/-- The parallel worker over a fallible model. -/
def runJobE (g : Geom) (w : WeatherE) (pts : List LLA) (los : LOS)
    (raytrace : Bool) : JobType × ℕ × ℕ → Except PyErr (List ℚ)
  | (.hydro, a, b) =>
      commonDelayE g w.hydrostatic ((pts.drop a).take (b - a))
        (sliceLOS los a b) raytrace
  | (.wet, a, b) =>
      commonDelayE g w.wet ((pts.drop a).take (b - a)) (sliceLOS los a b)
        raytrace

/-- Turn a list of per-job answers into a single list, or report which way
`np.concatenate` fails: with no arrays at all, or with a `None` left in the
answer list by a worker whose thread died on an exception. -/
def sequenceOpts : List (Option (List ℚ)) → Option (List (List ℚ))
  | [] => some []
  | none :: _ => none
  | some x :: rest => (sequenceOpts rest).map (fun l => x :: l)

/-- `np.concatenate` over the `_parmap` answer list (src/delay.py lines
224-225): raises on an empty argument list and on a `None` entry. -/
def concatOptE (ls : List (Option (List ℚ))) : Except PyErr (List ℚ) :=
  if ls.isEmpty then .error .emptyConcat
  else
    match sequenceOpts ls with
    | some xss => .ok xss.flatten
    | none => .error .concatNone

/-- `delay_from_grid` over a fallible model.  In `_parmap`, an exception in
a worker is caught and printed by the Thread machinery, never re-raised at
`join()`; the failed job's slot keeps its initial `None`
(`Except.toOption`).  The jobs generator itself is consumed while filling
the queue, so an out-of-range `hindices` access (odd worker count) raises
IndexError before any work runs. -/
def delay_from_grid_E (g : Geom) (w : WeatherE) (pts : List LLA) (los : LOS)
    (parallel raytrace : Bool) (nprocs : ℕ) : Except PyErr (List ℚ × List ℚ) :=
  if parallel then
    match buildJobs nprocs pts.length with
    | none => .error .indexError
    | some jobs =>
        let results := jobs.map (fun j => (runJobE g w pts los raytrace j).toOption)
        do
          let hydro ← concatOptE (results.take (nprocs / 2))
          let wet ← concatOptE (results.drop (nprocs / 2))
          pure (hydro, wet)
  else do
    let hydro ← commonDelayE g w.hydrostatic pts los raytrace
    let wet ← commonDelayE g w.wet pts los raytrace
    pure (hydro, wet)

/-- A raster as read by `util.gdal_open`: an array shape plus flattened
cell data. -/
structure Raster where
  shape : List ℕ
  data : List ℚ
deriving DecidableEq, Repr

/-- The message of the shape-mismatch ValueError of `delay_from_files`
(src/delay.py lines 256-258).  Only the first of the three adjacent string
literals carries the `f` prefix, and it contains no placeholder; the other
two are plain literals, so the placeholders survive verbatim instead of
being interpolated (the braces are written as escapes here). -/
def delayFromFilesMsg : String :=
  "lat, lon, and ht should have the same shape, but instead lat had shape \x7blats.shape\x7d, lon had shape \x7blons.shape\x7d, and ht had shape \x7bhts.shape\x7d"

/-- `delay_from_files(weather, lat, lon, ht, parallel, los, raytrace)`
(src/delay.py lines 237-264) in its default `los=Zenith` form: open the
three rasters, reject mismatched shapes before any computation, then zip
the flattened coordinates and call `delay_from_grid`. -/
def delay_from_files (g : Geom) (w : WeatherE) (lat lon ht : Raster)
    (parallel raytrace : Bool) (nprocs : ℕ) : Except PyErr (List ℚ × List ℚ) :=
  if lat.shape = lon.shape ∧ lon.shape = ht.shape then
    let llas := (lat.data.zip (lon.data.zip ht.data)).map
      (fun t => LLA.mk t.1 t.2.1 t.2.2)
    delay_from_grid_E g w llas .zenith parallel raytrace nprocs
  else .error (.valueError delayFromFilesMsg)

/-- A concrete instance of the geometry collaborator, used to evaluate the
embedding on explicit inputs: flat geometry with the up direction fixed at
the x axis and height read off the x coordinate. -/
def geom0 : Geom where
  lla2ecef := fun _ _ h => ⟨h, 0, 0⟩
  heightOf := fun v => v.x
  cosd := fun _ => 1
  sind := fun _ => 0
  zref := 100
  norm3 := fun v => |v.x|
  norm3_nonneg := fun v => abs_nonneg v.x
  norm3_smul := by
    intro c v
    show |c * v.x| = |c| * |v.x|
    exact abs_mul c v.x
  norm3_up := by
    intro lat lon
    norm_num
  height_up := by
    intro lat lon h t
    show h + t * (1 * 1) = h + t
    ring

/-- A constant atmospheric model returning 1 for both components. -/
def w1 : Weather :=
  ⟨fun _ => 1, fun _ => 1⟩

/-- A fallible model whose wet component always raises. -/
def wBoom : WeatherE :=
  ⟨fun _ => .ok 1, fun _ => .error "boom"⟩

/-- Well-formedness of the look-vector input for a point batch of the given
size, matching the array-shape contract of the callers: raytrace mode takes
`Zenith` or one 3-vector per point, projection mode one scalar per point. -/
def losWF : LOS → Bool → ℕ → Prop
  | LOS.zenith, rt, _ => rt = true
  | LOS.vectors vs, rt, n => rt = true ∧ vs.length = n
  | LOS.scalars cs, rt, n => rt = false ∧ cs.length = n

/-- The partition property claimed for the parallel dispatch: every index
below N lies in exactly one of the k contiguous slices. -/
def tilesExactly (N k : ℕ) : Prop :=
  ∀ j, j < N → ∃! i, i < k ∧ hindex N k i ≤ j ∧ j < hindex N k (i + 1)

/-- The balance property claimed for the parallel dispatch: every slice has
size `⌊N/k⌋` or `⌊N/k⌋ + 1`. -/
def sizesBalanced (N k : ℕ) : Prop :=
  ∀ i, i < k →
    hindex N k (i + 1) - hindex N k i = N / k ∨
    hindex N k (i + 1) - hindex N k i = N / k + 1

theorem Vec3.smul_mk (c a b d : ℚ) : c • (⟨a, b, d⟩ : Vec3) = ⟨c * a, c * b, c * d⟩ :=
  rfl

theorem Vec3.add_mk (a b c a2 b2 c2 : ℚ) :
    (⟨a, b, c⟩ : Vec3) + (⟨a2, b2, c2⟩ : Vec3) = ⟨a + a2, b + b2, c + c2⟩ :=
  rfl

theorem Vec3.smul_smul (a b : ℚ) (v : Vec3) : a • (b • v) = (a * b) • v := by
  cases v
  simp [Vec3.smul_mk]
  constructor
  · ring
  constructor
  · ring
  ring

theorem Vec3.one_smul (v : Vec3) : (1 : ℚ) • v = v := by
  cases v
  simp [Vec3.smul_mk]

theorem Vec3.add_zero_smul (v u : Vec3) : v + (0 : ℚ) • u = v := by
  cases v
  cases u
  simp [Vec3.smul_mk, Vec3.add_mk]

theorem Geom.norm3_zenithDir (g : Geom) (lat lon : ℚ) :
    g.norm3 (zenithDir g lat lon) = 1 :=
  g.norm3_up lat lon

theorem Geom.height_zenithDir (g : Geom) (lat lon h t : ℚ) :
    g.heightOf (g.lla2ecef lat lon h + t • zenithDir g lat lon) = h + t :=
  g.height_up lat lon h t

theorem tooHigh_le_length (g : Geom) : ∀ l : List Vec3, tooHigh g l ≤ l.length
  | [] => le_refl 0
  | p :: ps => by
      rw [tooHigh]
      split
      · simp
      · simpa using tooHigh_le_length g ps

theorem tooHigh_eq_length (g : Geom) :
    ∀ l : List Vec3, (∀ p ∈ l, ¬ g.zref < g.heightOf p) → tooHigh g l = l.length
  | [], _ => rfl
  | p :: ps, h => by
      rw [tooHigh, if_neg (h p (by simp))]
      simp [tooHigh_eq_length g ps (fun q hq => h q (by simp [hq]))]

theorem tooHigh_cons_high (g : Geom) (p : Vec3) (ps : List Vec3)
    (h : g.zref < g.heightOf p) : tooHigh g (p :: ps) = 0 := by
  rw [tooHigh, if_pos h]

theorem tooHigh_below (g : Geom) :
    ∀ (l : List Vec3) (i : ℕ), i < tooHigh g l →
      ¬ g.zref < g.heightOf (l.getD i ⟨0, 0, 0⟩)
  | [], i, h => by simp [tooHigh] at h
  | p :: ps, i, h => by
      by_cases hc : g.zref < g.heightOf p
      · rw [tooHigh, if_pos hc] at h
        omega
      · rw [tooHigh, if_neg hc] at h
        cases i with
        | zero => exact hc
        | succ j => simpa using tooHigh_below g ps j (by omega)

theorem tooHigh_first_high (g : Geom) :
    ∀ l : List Vec3, tooHigh g l < l.length →
      g.zref < g.heightOf (l.getD (tooHigh g l) ⟨0, 0, 0⟩)
  | [], h => by simp [tooHigh] at h
  | p :: ps, h => by
      by_cases hc : g.zref < g.heightOf p
      · rw [tooHigh, if_pos hc]
        exact hc
      · rw [tooHigh, if_neg hc] at h ⊢
        simpa using tooHigh_first_high g ps (by simpa using h)

theorem trapz_const (c : ℚ) : ∀ xs : List ℚ,
    trapz (xs.map (fun _ => c)) xs = c * (xs.getLast?.getD 0 - xs.head?.getD 0)
  | [] => by simp [trapz]
  | [x] => by simp [trapz]
  | x1 :: x2 :: tl => by
      have ih := trapz_const c (x2 :: tl)
      simp only [List.map_cons] at ih ⊢
      rw [trapz, ih]
      simp only [List.head?_cons, List.getLast?_cons_cons, Option.getD_some]
      ring

theorem linspace_length (a b : ℚ) (n : ℕ) : (linspace a b n).length = n := by
  unfold linspace
  split <;> simp

theorem linspace_head (a b : ℚ) (n : ℕ) (hn : 1 ≤ n) :
    (linspace a b n).head? = some a := by
  have hidx : 0 < (linspace a b n).length := by
    rw [linspace_length]
    omega
  rw [List.head?_eq_getElem?, List.getElem?_eq_getElem hidx]
  congr 1
  unfold linspace
  split
  · simp
  · simp

theorem linspace_eq_cons (a b : ℚ) (n : ℕ) (h : 1 ≤ n) :
    ∃ rest, linspace a b n = a :: rest := by
  cases hl : linspace a b n with
  | nil =>
      exfalso
      have hlen := linspace_length a b n
      rw [hl] at hlen
      simp at hlen
      omega
  | cons x rest =>
      have hh := linspace_head a b n h
      rw [hl] at hh
      simp at hh
      exact ⟨rest, by rw [hh]⟩

theorem linspace_getD (a b : ℚ) (n i : ℕ) (hn : 2 ≤ n) (hi : i < n) :
    (linspace a b n).getD i 0 = a + (b - a) * i / ((n : ℚ) - 1) := by
  unfold linspace
  rw [if_neg (by omega)]
  rw [List.getD_eq_getElem _ _ (by simpa using hi)]
  simp

theorem linspace_getLast (a b : ℚ) (n : ℕ) (hn : 2 ≤ n) :
    (linspace a b n).getLast?.getD 0 = b := by
  have hlen : (linspace a b n).length = n := linspace_length a b n
  have hidx : n - 1 < (linspace a b n).length := by omega
  rw [List.getLast?_eq_getElem?, hlen]
  rw [List.getElem?_eq_getElem hidx]
  simp only [Option.getD_some]
  rw [← List.getD_eq_getElem _ 0 hidx]
  rw [linspace_getD a b n (n - 1) hn (by omega)]
  have h1 : ((n : ℚ) - 1) ≠ 0 := by
    have h2 : (2 : ℚ) ≤ (n : ℚ) := by exact_mod_cast hn
    intro hc
    linarith
  have hcast : ((n - 1 : ℕ) : ℚ) = (n : ℚ) - 1 := by
    rw [Nat.cast_sub (by omega)]
    simp
  rw [hcast]
  field_simp

theorem linspace_headD (a b : ℚ) (n : ℕ) (hn : 1 ≤ n) :
    (linspace a b n).head?.getD 0 = a := by
  rw [linspace_head a b n hn]
  rfl

theorem linspace_mem_bounds (L : ℚ) (hL : 0 ≤ L) (n : ℕ) :
    ∀ t ∈ linspace 0 L n, 0 ≤ t ∧ t ≤ L := by
  intro t ht
  unfold linspace at ht
  split at ht
  · rcases List.mem_map.mp ht with ⟨i, _, rfl⟩
    exact ⟨le_refl 0, hL⟩
  · rename_i hn
    rcases List.mem_map.mp ht with ⟨i, hi, hti⟩
    have hin : i < n := List.mem_range.mp hi
    have hn2 : 2 ≤ n := by omega
    have hpos : (0 : ℚ) < (n : ℚ) - 1 := by
      have h2 : (2 : ℚ) ≤ (n : ℚ) := by exact_mod_cast hn2
      linarith
    have hval : (0 : ℚ) + (L - 0) * (i : ℚ) / ((n : ℚ) - 1) = L * i / ((n : ℚ) - 1) := by
      ring
    rw [← hti, hval]
    have hile : (i : ℚ) ≤ (n : ℚ) - 1 := by
      have h3 : (i : ℚ) + 1 ≤ (n : ℚ) := by exact_mod_cast hin
      linarith
    constructor
    · exact div_nonneg (mul_nonneg hL (by positivity)) hpos.le
    · rw [div_le_iff₀ hpos]
      nlinarith

theorem raySamplesWithDir_len (g : Geom) (pt : LLA) (v dir : Vec3) :
    (raySamplesWithDir g pt v dir).posKept.length =
      (raySamplesWithDir g pt v dir).tKept.length := by
  unfold raySamplesWithDir rayPositions
  simp

theorem raySamples_len (g : Geom) (pt : LLA) (v : Vec3) :
    (raySamples g pt v).posKept.length = (raySamples g pt v).tKept.length :=
  raySamplesWithDir_len g pt v (scaledLookVec g v)

theorem zip_map_self {α β : Type} (f : α → β) :
    ∀ l : List α, l.zip (l.map f) = l.map (fun a => (a, f a))
  | [] => rfl
  | a :: t => by simp [zip_map_self f t]


theorem chunk_recover (d : Vec3 → ℚ) :
    ∀ ss : List RaySamples, (∀ s ∈ ss, s.posKept.length = s.tKept.length) →
    ∀ i, i < ss.length →
      ((((ss.map RaySamples.posKept).flatten).map d).drop
          (((ss.map (fun s => s.tKept.length)).take i).sum)).take
          ((ss.map (fun s => s.tKept.length)).getD i 0)
        = ((ss.getD i ⟨[], []⟩).posKept).map d
  | [], _, i, hi => by simp at hi
  | s :: ss, h, 0, _ => by
      simp only [List.map_cons, List.take_zero, List.sum_nil, List.drop_zero,
        List.getD_cons_zero, List.flatten_cons, List.map_append]
      have hlen : s.tKept.length = (s.posKept.map d).length := by
        rw [List.length_map]
        exact (h s (by simp)).symm
      rw [hlen]
      exact List.take_left _ _
  | s :: ss, h, i + 1, hi => by
      simp only [List.map_cons, List.take_succ_cons, List.sum_cons,
        List.getD_cons_succ, List.flatten_cons, List.map_append]
      have hlen : s.tKept.length = (s.posKept.map d).length := by
        rw [List.length_map]
        exact (h s (by simp)).symm
      rw [hlen, ← List.drop_drop, List.drop_left]
      exact chunk_recover d ss (fun x hx => h x (by simp [hx])) i (by simpa using hi)

theorem delaysFor_eq (g : Geom) (d : Vec3 → ℚ) (pts : List LLA)
    (vs : List Vec3) (h : vs.length = pts.length) (hne : pts ≠ []) :
    delaysFor g d pts vs =
      some ((pts.zip vs).map (fun pv => rayDelay g d pv.1 pv.2)) := by
  have hzlen : (pts.zip vs).length = pts.length := by simp [h]
  simp only [delaysFor]
  rw [if_neg (by simpa [List.isEmpty_iff] using hne)]
  congr 1
  apply List.ext_getElem
  · simp [hzlen]
  intro i h1 h2
  have hi : i < pts.length := by simpa using h1
  have hiz : i < (pts.zip vs).length := by omega
  simp only [List.getElem_map, List.getElem_range]
  have hmem : ∀ s ∈ (pts.zip vs).map (fun pv => raySamples g pv.1 pv.2),
      s.posKept.length = s.tKept.length := by
    intro s hs
    rcases List.mem_map.mp hs with ⟨pv, _, rfl⟩
    exact raySamples_len g pv.1 pv.2
  have hil : i < ((pts.zip vs).map (fun pv => raySamples g pv.1 pv.2)).length := by
    simpa using hiz
  rw [chunk_recover d _ hmem i hil]
  rw [List.getD_eq_getElem _ _ hil, List.getElem_map]
  rfl

theorem zip_zenith_map (g : Geom) (d : Vec3 → ℚ) (pts : List LLA) :
    (pts.zip (zenithVecs g pts)).map (fun pv => rayDelay g d pv.1 pv.2) =
      pts.map (fun p =>
        rayDelay g d p ((g.zref - p.ht) • zenithDir g p.lat p.lon)) := by
  unfold zenithVecs
  rw [zip_map_self, List.map_map]
  rfl

theorem commonDelay_zenith (g : Geom) (d : Vec3 → ℚ) (pts : List LLA)
    (hne : pts ≠ []) :
    commonDelay g d pts .zenith true =
      some (pts.map (fun p =>
        rayDelay g d p ((g.zref - p.ht) • zenithDir g p.lat p.lon))) := by
  unfold commonDelay
  simp only [if_pos]
  rw [delaysFor_eq g d pts _ (by simp [zenithVecs]) hne, zip_zenith_map]

theorem commonDelay_vectors (g : Geom) (d : Vec3 → ℚ) (pts : List LLA)
    (vs : List Vec3) (h : vs.length = pts.length) (hne : pts ≠ []) :
    commonDelay g d pts (.vectors vs) true =
      some ((pts.zip vs).map (fun pv => rayDelay g d pv.1 pv.2)) := by
  unfold commonDelay
  simp only [if_pos]
  exact delaysFor_eq g d pts vs h hne

theorem commonDelay_scalars (g : Geom) (d : Vec3 → ℚ) (pts : List LLA)
    (cs : List ℚ) (hne : pts ≠ []) :
    commonDelay g d pts (.scalars cs) false =
      some (List.zipWith (fun dlt c => dlt * (1 / g.cosd c))
        (pts.map (fun p =>
          rayDelay g d p ((g.zref - p.ht) • zenithDir g p.lat p.lon))) cs) := by
  unfold commonDelay
  simp only [Bool.false_eq_true, if_neg, if_false]
  rw [delaysFor_eq g d pts _ (by simp [zenithVecs]) hne, Option.map_some',
    zip_zenith_map]

theorem runAll_some {α β : Type} (F : α → Option β) (G : α → β) :
    ∀ l : List α, (∀ x ∈ l, F x = some (G x)) → runAll F l = some (l.map G)
  | [], _ => rfl
  | a :: l, h => by
      rw [runAll, h a (by simp), runAll_some F G l (fun x hx => h x (by simp [hx]))]
      rfl

theorem flatten_slices_take {α : Type} (l : List α) (f : ℕ → ℕ) (hf0 : f 0 = 0)
    (hmono : ∀ i, f i ≤ f (i + 1)) :
    ∀ m, ((List.range m).map
        (fun i => (l.drop (f i)).take (f (i + 1) - f i))).flatten = l.take (f m)
  | 0 => by simp [hf0]
  | m + 1 => by
      rw [List.range_succ, List.map_append, List.flatten_append]
      rw [flatten_slices_take l f hf0 hmono m]
      simp only [List.map_cons, List.map_nil, List.flatten_cons,
        List.flatten_nil, List.append_nil]
      rw [← List.take_add]
      congr 1
      have h1 := hmono m
      omega

theorem hindex_zero (N k : ℕ) : hindex N k 0 = 0 := by
  simp [hindex]

theorem hindex_self (N k : ℕ) (h : 0 < k) : hindex N k k = N := by
  unfold hindex
  exact Nat.mul_div_cancel_left N h

theorem hindex_mono (N k : ℕ) (i : ℕ) : hindex N k i ≤ hindex N k (i + 1) :=
  Nat.div_le_div_right (Nat.mul_le_mul_right N (by omega))

theorem hindex_le (N k : ℕ) {i j : ℕ} (h : i ≤ j) :
    hindex N k i ≤ hindex N k j :=
  Nat.div_le_div_right (Nat.mul_le_mul_right N h)

theorem hindex_strict (N k i : ℕ) (hk : 0 < k) (hkN : k ≤ N) :
    hindex N k i < hindex N k (i + 1) := by
  unfold hindex
  have h2 : i * N / k * k ≤ i * N := Nat.div_mul_le_self _ _
  have h3 : N / k * k ≤ N := Nat.div_mul_le_self _ _
  have h4 : 1 ≤ N / k := (Nat.one_le_div_iff hk).mpr hkN
  have h5 : (i * N / k + N / k) * k = i * N / k * k + N / k * k := by ring
  have h6 : (i + 1) * N = i * N + N := by ring
  have h7 : i * N / k + N / k ≤ (i + 1) * N / k := by
    rw [Nat.le_div_iff_mul_le hk]
    omega
  omega

theorem hindex_le_iff (N k i j : ℕ) (hk : 0 < k) :
    hindex N k i ≤ j ↔ i * N < (j + 1) * k := by
  unfold hindex
  rw [← Nat.lt_succ_iff, Nat.div_lt_iff_lt_mul hk]

theorem lt_hindex_iff (N k i j : ℕ) (hk : 0 < k) :
    j < hindex N k i ↔ (j + 1) * k ≤ i * N := by
  unfold hindex
  constructor
  · intro h
    have h1 : j + 1 ≤ i * N / k := h
    exact (Nat.le_div_iff_mul_le hk).mp h1
  · intro h
    have h1 := (Nat.le_div_iff_mul_le hk).mpr h
    omega

theorem hindex_tiles (N k : ℕ) (hk : 0 < k) : tilesExactly N k := by
  intro j hj
  have hN : 0 < N := by omega
  have hApos : 0 < (j + 1) * k := Nat.mul_pos (Nat.succ_pos j) hk
  have hmem1 : hindex N k (((j + 1) * k - 1) / N) ≤ j := by
    rw [hindex_le_iff N k _ j hk]
    have h1 := Nat.div_mul_le_self ((j + 1) * k - 1) N
    omega
  have hmem2 : j < hindex N k ((((j + 1) * k - 1) / N) + 1) := by
    rw [lt_hindex_iff N k _ j hk]
    have h1 : ((j + 1) * k - 1) < ((((j + 1) * k - 1) / N) + 1) * N :=
      (Nat.div_lt_iff_lt_mul hN).mp (by omega)
    omega
  have hik : ((j + 1) * k - 1) / N < k := by
    rw [Nat.div_lt_iff_lt_mul hN]
    have h1 : (j + 1) * k ≤ N * k := Nat.mul_le_mul_right k (by omega)
    have h2 : N * k = k * N := Nat.mul_comm N k
    omega
  refine ⟨((j + 1) * k - 1) / N, ⟨hik, hmem1, hmem2⟩, ?_⟩
  rintro y ⟨hyk, hy1, hy2⟩
  by_contra hne
  rcases Nat.lt_or_ge y (((j + 1) * k - 1) / N) with hlt | hge
  · have hle : hindex N k (y + 1) ≤ hindex N k (((j + 1) * k - 1) / N) :=
      hindex_le N k (by omega)
    omega
  · have hgt : (((j + 1) * k - 1) / N) + 1 ≤ y := by omega
    have hle : hindex N k ((((j + 1) * k - 1) / N) + 1) ≤ hindex N k y :=
      hindex_le N k hgt
    omega

theorem hindex_sizes (N k : ℕ) (hk : 0 < k) : sizesBalanced N k := by
  intro i _
  have hlow : hindex N k i + N / k ≤ hindex N k (i + 1) := by
    unfold hindex
    rw [Nat.le_div_iff_mul_le hk]
    have h1 : i * N / k * k ≤ i * N := Nat.div_mul_le_self _ k
    have h2 : N / k * k ≤ N := Nat.div_mul_le_self N k
    have h3 : (i + 1) * N = i * N + N := by ring
    have h4 : (i * N / k + N / k) * k = i * N / k * k + N / k * k := by ring
    omega
  have hup : hindex N k (i + 1) ≤ hindex N k i + N / k + 1 := by
    unfold hindex
    have hd1 := Nat.div_add_mod (i * N) k
    have hd2 := Nat.div_add_mod N k
    have hm1 := (i * N).mod_lt hk
    have hm2 := N.mod_lt hk
    have hdec : (i + 1) * N = (i * N % k + N % k) + (i * N / k + N / k) * k := by
      have h5 : (i + 1) * N = i * N + N := by ring
      have h6 : (i * N / k + N / k) * k = k * (i * N / k) + k * (N / k) := by ring
      omega
    rw [hdec, Nat.add_mul_div_right _ _ hk]
    have hr : (i * N % k + N % k) / k ≤ 1 := by
      have h7 : i * N % k + N % k < 2 * k := by omega
      have h8 := (Nat.div_lt_iff_lt_mul hk).mpr h7
      omega
    omega
  generalize hq : N / k = q at hlow hup ⊢
  omega

theorem buildJobs_even (nprocs N : ℕ) (he : nprocs % 2 = 0) (h2 : 2 ≤ nprocs) :
    buildJobs nprocs N = some
      (((List.range (nprocs / 2)).map (fun i =>
          (JobType.hydro, hindex N (nprocs / 2) i, hindex N (nprocs / 2) (i + 1))))
       ++ ((List.range (nprocs / 2)).map (fun i =>
          (JobType.wet, hindex N (nprocs / 2) i, hindex N (nprocs / 2) (i + 1))))) := by
  have hwp : nprocs - nprocs / 2 = nprocs / 2 := by omega
  unfold buildJobs
  simp only [hwp]
  rw [if_pos (le_refl (nprocs / 2))]

theorem delay_from_grid_par (g : Geom) (w : Weather) (pts : List LLA)
    (los : LOS) (rt : Bool) (nprocs : ℕ) (Sh Sw : List ℚ)
    (he : nprocs % 2 = 0) (h2 : 2 ≤ nprocs) (hkN : nprocs / 2 ≤ pts.length)
    (hh : ∀ a b : ℕ, a < b → b ≤ pts.length →
        hydrostatic_delay g w ((pts.drop a).take (b - a))
        (sliceLOS los a b) rt = some ((Sh.drop a).take (b - a)))
    (hw : ∀ a b : ℕ, a < b → b ≤ pts.length →
        wet_delay g w ((pts.drop a).take (b - a))
        (sliceLOS los a b) rt = some ((Sw.drop a).take (b - a)))
    (hlh : Sh.length = pts.length) (hlw : Sw.length = pts.length) :
    delay_from_grid g w pts los true rt nprocs = some (Sh, Sw) := by
  have hp1 : 1 ≤ nprocs / 2 := by omega
  have hjob_lt : ∀ i : ℕ, hindex pts.length (nprocs / 2) i <
      hindex pts.length (nprocs / 2) (i + 1) :=
    fun i => hindex_strict pts.length (nprocs / 2) i (by omega) hkN
  have hjob_le : ∀ i : ℕ, i < nprocs / 2 →
      hindex pts.length (nprocs / 2) (i + 1) ≤ pts.length := by
    intro i hi
    have h1 : hindex pts.length (nprocs / 2) (i + 1) ≤
        hindex pts.length (nprocs / 2) (nprocs / 2) :=
      hindex_le pts.length (nprocs / 2) hi
    rw [hindex_self pts.length (nprocs / 2) (by omega)] at h1
    exact h1
  have hjobs := buildJobs_even nprocs pts.length he h2
  have hrun : runAll (runJob g w pts los rt)
      (((List.range (nprocs / 2)).map (fun i =>
          (JobType.hydro, hindex pts.length (nprocs / 2) i,
            hindex pts.length (nprocs / 2) (i + 1))))
       ++ ((List.range (nprocs / 2)).map (fun i =>
          (JobType.wet, hindex pts.length (nprocs / 2) i,
            hindex pts.length (nprocs / 2) (i + 1))))) =
      some ((((List.range (nprocs / 2)).map (fun i =>
          (JobType.hydro, hindex pts.length (nprocs / 2) i,
            hindex pts.length (nprocs / 2) (i + 1))))
       ++ ((List.range (nprocs / 2)).map (fun i =>
          (JobType.wet, hindex pts.length (nprocs / 2) i,
            hindex pts.length (nprocs / 2) (i + 1))))).map (fun j =>
        match j with
        | (JobType.hydro, a, b) => (Sh.drop a).take (b - a)
        | (JobType.wet, a, b) => (Sw.drop a).take (b - a))) := by
    apply runAll_some
    intro x hx
    rcases List.mem_append.mp hx with hxh | hxw
    · rcases List.mem_map.mp hxh with ⟨i, hi, rfl⟩
      exact hh _ _ (hjob_lt i) (hjob_le i (List.mem_range.mp hi))
    · rcases List.mem_map.mp hxw with ⟨i, hi, rfl⟩
      exact hw _ _ (hjob_lt i) (hjob_le i (List.mem_range.mp hi))
  have htake : ∀ G : JobType × ℕ × ℕ → List ℚ,
      ((((List.range (nprocs / 2)).map (fun i =>
          (JobType.hydro, hindex pts.length (nprocs / 2) i,
            hindex pts.length (nprocs / 2) (i + 1))))
       ++ ((List.range (nprocs / 2)).map (fun i =>
          (JobType.wet, hindex pts.length (nprocs / 2) i,
            hindex pts.length (nprocs / 2) (i + 1))))).map G).take (nprocs / 2) =
      ((List.range (nprocs / 2)).map (fun i =>
          (JobType.hydro, hindex pts.length (nprocs / 2) i,
            hindex pts.length (nprocs / 2) (i + 1)))).map G := by
    intro G
    rw [List.map_append]
    exact List.take_left' (by simp)
  have hdrop : ∀ G : JobType × ℕ × ℕ → List ℚ,
      ((((List.range (nprocs / 2)).map (fun i =>
          (JobType.hydro, hindex pts.length (nprocs / 2) i,
            hindex pts.length (nprocs / 2) (i + 1))))
       ++ ((List.range (nprocs / 2)).map (fun i =>
          (JobType.wet, hindex pts.length (nprocs / 2) i,
            hindex pts.length (nprocs / 2) (i + 1))))).map G).drop (nprocs / 2) =
      ((List.range (nprocs / 2)).map (fun i =>
          (JobType.wet, hindex pts.length (nprocs / 2) i,
            hindex pts.length (nprocs / 2) (i + 1)))).map G := by
    intro G
    rw [List.map_append]
    exact List.drop_left' (by simp)
  have hslices : ∀ S : List ℚ, S.length = pts.length →
      concatArrays ((List.range (nprocs / 2)).map (fun i =>
        (S.drop (hindex pts.length (nprocs / 2) i)).take
          (hindex pts.length (nprocs / 2) (i + 1) -
            hindex pts.length (nprocs / 2) i))) = some S := by
    intro S hS
    unfold concatArrays
    rw [if_neg (by
      simp only [List.isEmpty_eq_true, List.map_eq_nil_iff, List.range_eq_nil]
      omega)]
    congr 1
    rw [flatten_slices_take S (hindex pts.length (nprocs / 2)) (hindex_zero _ _)
      (hindex_mono _ _) (nprocs / 2)]
    rw [hindex_self _ _ (by omega), ← hS]
    exact List.take_length S
  unfold delay_from_grid
  rw [if_pos rfl, hjobs]
  rw [Option.bind_eq_bind, Option.some_bind]
  rw [hrun, Option.bind_eq_bind, Option.some_bind]
  rw [htake, hdrop]
  rw [List.map_map, List.map_map]
  have hch : concatArrays ((List.range (nprocs / 2)).map
      ((fun j => match j with
        | (JobType.hydro, a, b) => (Sh.drop a).take (b - a)
        | (JobType.wet, a, b) => (Sw.drop a).take (b - a)) ∘ (fun i =>
          (JobType.hydro, hindex pts.length (nprocs / 2) i,
            hindex pts.length (nprocs / 2) (i + 1))))) = some Sh := by
    have hcomp : ((fun j => match j with
        | (JobType.hydro, a, b) => (Sh.drop a).take (b - a)
        | (JobType.wet, a, b) => (Sw.drop a).take (b - a)) ∘ (fun i =>
          (JobType.hydro, hindex pts.length (nprocs / 2) i,
            hindex pts.length (nprocs / 2) (i + 1)))) = (fun i =>
          (Sh.drop (hindex pts.length (nprocs / 2) i)).take
            (hindex pts.length (nprocs / 2) (i + 1) -
              hindex pts.length (nprocs / 2) i)) := rfl
    rw [hcomp]
    exact hslices Sh hlh
  have hcw : concatArrays ((List.range (nprocs / 2)).map
      ((fun j => match j with
        | (JobType.hydro, a, b) => (Sh.drop a).take (b - a)
        | (JobType.wet, a, b) => (Sw.drop a).take (b - a)) ∘ (fun i =>
          (JobType.wet, hindex pts.length (nprocs / 2) i,
            hindex pts.length (nprocs / 2) (i + 1))))) = some Sw := by
    have hcomp : ((fun j => match j with
        | (JobType.hydro, a, b) => (Sh.drop a).take (b - a)
        | (JobType.wet, a, b) => (Sw.drop a).take (b - a)) ∘ (fun i =>
          (JobType.wet, hindex pts.length (nprocs / 2) i,
            hindex pts.length (nprocs / 2) (i + 1)))) = (fun i =>
          (Sw.drop (hindex pts.length (nprocs / 2) i)).take
            (hindex pts.length (nprocs / 2) (i + 1) -
              hindex pts.length (nprocs / 2) i)) := rfl
    rw [hcomp]
    exact hslices Sw hlw
  rw [hch, Option.bind_eq_bind, Option.some_bind]
  rw [hcw]
  rfl


theorem norm3_zenith_vec (g : Geom) (lat lon L : ℚ) (hpos : 0 ≤ L) :
    g.norm3 (L • zenithDir g lat lon) = L := by
  rw [g.norm3_smul, Geom.norm3_zenithDir, mul_one, abs_of_nonneg hpos]

theorem scaled_zenith (g : Geom) (lat lon L : ℚ) (hL : 0 < L) :
    scaledLookVec g (L • zenithDir g lat lon) = zenithDir g lat lon := by
  unfold scaledLookVec
  rw [norm3_zenith_vec g lat lon L hL.le, Vec3.smul_smul,
    one_div_mul_cancel hL.ne', Vec3.one_smul]

theorem sampleSteps_pos (L : ℚ) (hL : 0 < L) : 1 ≤ sampleSteps L := by
  unfold sampleSteps
  have h1 : 0 < Int.ceil (L / STEP) := by
    rw [Int.ceil_pos]
    have : (0 : ℚ) < STEP := by norm_num [STEP]
    positivity
  omega

theorem heightOf_lla2ecef (g : Geom) (lat lon h : ℚ) :
    g.heightOf (g.lla2ecef lat lon h) = h := by
  have h1 := g.height_zenithDir lat lon h 0
  rwa [Vec3.add_zero_smul, add_zero] at h1

theorem raySamplesWithDir_mk (g : Geom) (lat lon ht : ℚ) (v dir : Vec3) :
    raySamplesWithDir g ⟨lat, lon, ht⟩ v dir =
      ⟨(linspace 0 (g.norm3 v) (sampleSteps (g.norm3 v))).take
          (tooHigh g (rayPositions (g.lla2ecef lat lon ht) dir
            (linspace 0 (g.norm3 v) (sampleSteps (g.norm3 v))))),
        (rayPositions (g.lla2ecef lat lon ht) dir
            (linspace 0 (g.norm3 v) (sampleSteps (g.norm3 v)))).take
          (tooHigh g (rayPositions (g.lla2ecef lat lon ht) dir
            (linspace 0 (g.norm3 v) (sampleSteps (g.norm3 v)))))⟩ :=
  rfl

theorem raySamples_zenith_all_kept (g : Geom) (lat lon L : ℚ) (hL : 0 < L) :
    raySamples g ⟨lat, lon, g.zref - L⟩ (L • zenithDir g lat lon) =
      ⟨linspace 0 L (sampleSteps L),
       rayPositions (g.lla2ecef lat lon (g.zref - L)) (zenithDir g lat lon)
         (linspace 0 L (sampleSteps L))⟩ := by
  unfold raySamples
  rw [raySamplesWithDir_mk]
  rw [norm3_zenith_vec g lat lon L hL.le, scaled_zenith g lat lon L hL]
  have hall : ∀ p ∈ rayPositions (g.lla2ecef lat lon (g.zref - L))
      (zenithDir g lat lon) (linspace 0 L (sampleSteps L)),
      ¬ g.zref < g.heightOf p := by
    intro p hp
    rcases List.mem_map.mp hp with ⟨t, ht, rfl⟩
    rw [Geom.height_zenithDir]
    have hb := linspace_mem_bounds L hL.le (sampleSteps L) t ht
    simp only [not_lt]
    linarith [hb.2]
  rw [tooHigh_eq_length g _ hall]
  have hplen : (rayPositions (g.lla2ecef lat lon (g.zref - L))
      (zenithDir g lat lon) (linspace 0 L (sampleSteps L))).length =
      (linspace 0 L (sampleSteps L)).length := by
    unfold rayPositions
    rw [List.length_map]
  rw [hplen]
  congr 1
  · exact List.take_length _
  · rw [← hplen]
    exact List.take_length _

theorem rayDelay_zenith_const (g : Geom) (c lat lon L : ℚ) (hL : 0 < L) :
    rayDelay g (fun _ => c) ⟨lat, lon, g.zref - L⟩ (L • zenithDir g lat lon) =
      (1 / 1000000) * (c * ((linspace 0 L (sampleSteps L)).getLast?.getD 0 -
        (linspace 0 L (sampleSteps L)).head?.getD 0)) := by
  unfold rayDelay
  rw [raySamples_zenith_all_kept g lat lon L hL]
  show (1 / 1000000) * trapz ((rayPositions (g.lla2ecef lat lon (g.zref - L))
      (zenithDir g lat lon) (linspace 0 L (sampleSteps L))).map (fun _ => c))
      (linspace 0 L (sampleSteps L)) = _
  unfold rayPositions
  rw [List.map_map]
  have hcomp : ((fun _ => c) ∘ fun t : ℚ =>
      g.lla2ecef lat lon (g.zref - L) + t • zenithDir g lat lon) =
      (fun _ : ℚ => c) := rfl
  rw [hcomp]
  rw [trapz_const c (linspace 0 L (sampleSteps L))]

theorem commonDelay_zenith_const (g : Geom) (c lat lon L : ℚ) (hL : 0 < L) :
    commonDelay g (fun _ => c) [⟨lat, lon, g.zref - L⟩] .zenith true =
      some [(1 / 1000000) * (c *
        ((linspace 0 L (sampleSteps L)).getLast?.getD 0 -
          (linspace 0 L (sampleSteps L)).head?.getD 0))] := by
  rw [commonDelay_zenith _ _ _ (by simp)]
  simp only [List.map_cons, List.map_nil]
  have hsub : g.zref - (g.zref - L) = L := by ring
  rw [hsub, rayDelay_zenith_const g c lat lon L hL]

theorem sampleSteps_30 : sampleSteps 30 = 2 := by
  have h1 : (30 : ℚ) / STEP = 2 := by norm_num [STEP]
  unfold sampleSteps
  rw [h1]
  decide

theorem linspace_0_30_2 : linspace 0 30 2 = [0, 30] := by
  unfold linspace
  rw [if_neg (by norm_num)]
  rw [show List.range 2 = [0, 1] from rfl]
  simp only [List.map_cons, List.map_nil]
  norm_num

/-- C1: for every weather model, point batch, well-shaped line-of-sight
input, and raytrace flag, a parallel `delay_from_grid` call with an even
worker count of at least 2 whose half does not exceed the batch size (so no
dispatched slice is empty) returns exactly the serial result (first
conjunct).  The claim's "for every available worker count >= 1" fails two
ways: for the odd count 1 the wet-job generator reads past the end of
`hindices` and the parallel call dies with IndexError while the serial call
succeeds (second and third conjuncts); and for the even count 4 on a
one-point batch the dispatch builds the empty slice `(hydro, 0, 0)`, whose
worker raises the empty-`np.concatenate(positions_l)` ValueError
(src/delay.py line 87), so the parallel call fails while the serial call
still succeeds (fourth conjunct). -/
theorem c1_parallel_equals_serial :
    (∀ (g : Geom) (w : Weather) (pts : List LLA) (los : LOS) (rt : Bool)
        (nprocs : ℕ), nprocs % 2 = 0 → 2 ≤ nprocs →
        nprocs / 2 ≤ pts.length → losWF los rt pts.length →
      delay_from_grid g w pts los true rt nprocs =
        delay_from_grid g w pts los false rt nprocs) ∧
    delay_from_grid geom0 w1 [⟨0, 0, geom0.zref - 30⟩] .zenith false true 1 =
      some ([3 / 100000], [3 / 100000]) ∧
    delay_from_grid geom0 w1 [⟨0, 0, geom0.zref - 30⟩] .zenith true true 1 =
      none ∧
    delay_from_grid geom0 w1 [⟨0, 0, geom0.zref - 30⟩] .zenith true true 4 =
      none := by
  refine ⟨?_, ?_, ?_, ?_⟩
  · intro g w pts los rt nprocs he h2 hkN hwf
    have hpts_ne : pts ≠ [] := by
      apply List.ne_nil_of_length_pos
      omega
    have hslice_ne : ∀ a b : ℕ, a < b → b ≤ pts.length →
        (pts.drop a).take (b - a) ≠ [] := by
      intro a b hab hbl
      apply List.ne_nil_of_length_pos
      rw [List.length_take, List.length_drop]
      omega
    cases los with
    | zenith =>
        have hrt : rt = true := hwf
        subst hrt
        have hh : ∀ a b : ℕ, a < b → b ≤ pts.length →
            hydrostatic_delay g w ((pts.drop a).take (b - a))
            (sliceLOS .zenith a b) true =
            some ((((pts.map (fun p => rayDelay g w.hydrostatic p
              ((g.zref - p.ht) • zenithDir g p.lat p.lon))).drop a).take (b - a))) := by
          intro a b hab hbl
          unfold hydrostatic_delay
          show commonDelay g w.hydrostatic ((pts.drop a).take (b - a)) .zenith true = _
          rw [commonDelay_zenith g w.hydrostatic _ (hslice_ne a b hab hbl)]
          congr 1
          rw [List.map_take, List.map_drop]
        have hw : ∀ a b : ℕ, a < b → b ≤ pts.length →
            wet_delay g w ((pts.drop a).take (b - a))
            (sliceLOS .zenith a b) true =
            some ((((pts.map (fun p => rayDelay g w.wet p
              ((g.zref - p.ht) • zenithDir g p.lat p.lon))).drop a).take (b - a))) := by
          intro a b hab hbl
          unfold wet_delay
          show commonDelay g w.wet ((pts.drop a).take (b - a)) .zenith true = _
          rw [commonDelay_zenith g w.wet _ (hslice_ne a b hab hbl)]
          congr 1
          rw [List.map_take, List.map_drop]
        rw [delay_from_grid_par g w pts .zenith true nprocs _ _ he h2 hkN hh hw
          (by simp) (by simp)]
        unfold delay_from_grid
        rw [if_neg Bool.false_ne_true]
        unfold hydrostatic_delay wet_delay
        rw [commonDelay_zenith g w.hydrostatic _ hpts_ne,
          commonDelay_zenith g w.wet _ hpts_ne]
        rfl
    | vectors vs =>
        obtain ⟨hrt, hlen⟩ := hwf
        subst hrt
        have hh : ∀ a b : ℕ, a < b → b ≤ pts.length →
            hydrostatic_delay g w ((pts.drop a).take (b - a))
            (sliceLOS (.vectors vs) a b) true =
            some (((((pts.zip vs).map (fun pv =>
              rayDelay g w.hydrostatic pv.1 pv.2)).drop a).take (b - a))) := by
          intro a b hab hbl
          unfold hydrostatic_delay
          show commonDelay g w.hydrostatic ((pts.drop a).take (b - a))
            (.vectors ((vs.drop a).take (b - a))) true = _
          rw [commonDelay_vectors g w.hydrostatic _ _ (by simp [hlen])
            (hslice_ne a b hab hbl)]
          congr 1
          have hz : ∀ (l1 : List LLA) (l2 : List Vec3),
              l1.zip l2 = List.zipWith Prod.mk l1 l2 := fun _ _ => rfl
          rw [hz, hz, ← List.take_zipWith, ← List.drop_zipWith,
            List.map_take, List.map_drop]
        have hw : ∀ a b : ℕ, a < b → b ≤ pts.length →
            wet_delay g w ((pts.drop a).take (b - a))
            (sliceLOS (.vectors vs) a b) true =
            some (((((pts.zip vs).map (fun pv =>
              rayDelay g w.wet pv.1 pv.2)).drop a).take (b - a))) := by
          intro a b hab hbl
          unfold wet_delay
          show commonDelay g w.wet ((pts.drop a).take (b - a))
            (.vectors ((vs.drop a).take (b - a))) true = _
          rw [commonDelay_vectors g w.wet _ _ (by simp [hlen])
            (hslice_ne a b hab hbl)]
          congr 1
          have hz : ∀ (l1 : List LLA) (l2 : List Vec3),
              l1.zip l2 = List.zipWith Prod.mk l1 l2 := fun _ _ => rfl
          rw [hz, hz, ← List.take_zipWith, ← List.drop_zipWith,
            List.map_take, List.map_drop]
        rw [delay_from_grid_par g w pts (.vectors vs) true nprocs _ _ he h2 hkN
          hh hw (by simp [hlen]) (by simp [hlen])]
        unfold delay_from_grid
        rw [if_neg Bool.false_ne_true]
        unfold hydrostatic_delay wet_delay
        rw [commonDelay_vectors g w.hydrostatic _ _ hlen hpts_ne,
          commonDelay_vectors g w.wet _ _ hlen hpts_ne]
        rfl
    | scalars cs =>
        obtain ⟨hrt, hlen⟩ := hwf
        subst hrt
        have hh : ∀ a b : ℕ, a < b → b ≤ pts.length →
            hydrostatic_delay g w ((pts.drop a).take (b - a))
            (sliceLOS (.scalars cs) a b) false =
            some ((((List.zipWith (fun dlt c => dlt * (1 / g.cosd c))
              (pts.map (fun p => rayDelay g w.hydrostatic p
                ((g.zref - p.ht) • zenithDir g p.lat p.lon))) cs).drop a).take
                  (b - a))) := by
          intro a b hab hbl
          unfold hydrostatic_delay
          show commonDelay g w.hydrostatic ((pts.drop a).take (b - a))
            (.scalars ((cs.drop a).take (b - a))) false = _
          rw [commonDelay_scalars g w.hydrostatic _ _ (hslice_ne a b hab hbl)]
          congr 1
          rw [List.map_take, List.map_drop, ← List.take_zipWith,
            ← List.drop_zipWith]
        have hw : ∀ a b : ℕ, a < b → b ≤ pts.length →
            wet_delay g w ((pts.drop a).take (b - a))
            (sliceLOS (.scalars cs) a b) false =
            some ((((List.zipWith (fun dlt c => dlt * (1 / g.cosd c))
              (pts.map (fun p => rayDelay g w.wet p
                ((g.zref - p.ht) • zenithDir g p.lat p.lon))) cs).drop a).take
                  (b - a))) := by
          intro a b hab hbl
          unfold wet_delay
          show commonDelay g w.wet ((pts.drop a).take (b - a))
            (.scalars ((cs.drop a).take (b - a))) false = _
          rw [commonDelay_scalars g w.wet _ _ (hslice_ne a b hab hbl)]
          congr 1
          rw [List.map_take, List.map_drop, ← List.take_zipWith,
            ← List.drop_zipWith]
        rw [delay_from_grid_par g w pts (.scalars cs) false nprocs _ _ he h2 hkN
          hh hw (by simp [hlen]) (by simp [hlen])]
        unfold delay_from_grid
        rw [if_neg Bool.false_ne_true]
        unfold hydrostatic_delay wet_delay
        rw [commonDelay_scalars g w.hydrostatic _ _ hpts_ne,
          commonDelay_scalars g w.wet _ _ hpts_ne]
        rfl
  · unfold delay_from_grid
    rw [if_neg Bool.false_ne_true]
    unfold hydrostatic_delay wet_delay
    have hhy : w1.hydrostatic = fun _ => (1 : ℚ) := rfl
    have hwe : w1.wet = fun _ => (1 : ℚ) := rfl
    rw [hhy, hwe, commonDelay_zenith_const geom0 1 0 0 30 (by norm_num)]
    rw [sampleSteps_30, linspace_0_30_2]
    simp only [Option.bind_eq_bind, Option.some_bind, List.getLast?_cons_cons,
      List.getLast?_singleton, List.head?_cons, Option.getD_some]
    norm_num
  · unfold delay_from_grid
    rw [if_pos rfl]
    rw [show ([(⟨0, 0, geom0.zref - 30⟩ : LLA)].length) = 1 from rfl]
    rw [show buildJobs 1 1 = none from by decide]
    rfl
  · rfl

theorem linspace_one (a b : ℚ) : linspace a b 1 = [a] := by
  unfold linspace
  rw [if_pos (le_refl 1)]
  rfl

theorem linspace_zero (a b : ℚ) : linspace a b 0 = [] := by
  unfold linspace
  rw [if_pos (by omega)]
  rfl

theorem raySamples_zenith_above (g : Geom) (lat lon h : ℚ)
    (habove : g.zref < h) :
    raySamples g ⟨lat, lon, h⟩ ((g.zref - h) • zenithDir g lat lon) =
      ⟨[], []⟩ := by
  unfold raySamples
  rw [raySamplesWithDir_mk]
  have hnorm : g.norm3 ((g.zref - h) • zenithDir g lat lon) = h - g.zref := by
    rw [g.norm3_smul, Geom.norm3_zenithDir, mul_one, abs_of_neg (by linarith)]
    ring
  rw [hnorm]
  have hn1 : 1 ≤ sampleSteps (h - g.zref) := sampleSteps_pos _ (by linarith)
  obtain ⟨rest, hrest⟩ := linspace_eq_cons 0 (h - g.zref) _ hn1
  rw [hrest]
  unfold rayPositions
  rw [List.map_cons]
  have hheight : g.zref < g.heightOf (g.lla2ecef lat lon h +
      (0 : ℚ) • scaledLookVec g ((g.zref - h) • zenithDir g lat lon)) := by
    rw [Vec3.add_zero_smul, heightOf_lla2ecef]
    exact habove
  rw [tooHigh_cons_high g _ _ hheight]
  simp

theorem rayDelay_zenith_above (g : Geom) (d : Vec3 → ℚ) (lat lon h : ℚ)
    (habove : g.zref < h) :
    rayDelay g d ⟨lat, lon, h⟩ ((g.zref - h) • zenithDir g lat lon) = 0 := by
  unfold rayDelay
  rw [raySamples_zenith_above g lat lon h habove]
  show (1 / 1000000) * trapz (([] : List Vec3).map d) [] = 0
  simp [trapz]

/-- C8: a Zenith query at a point strictly above the troposphere reference
height returns delay 0 for both the hydrostatic and the wet component,
without raising: the first generated sample already exceeds `zref`, so the
kept prefix is empty and the trapezoid sum over it is 0. -/
theorem c8_above_zref_zero_delay (g : Geom) (w : Weather) (lat lon h : ℚ)
    (habove : g.zref < h) (nprocs : ℕ) :
    delay_from_grid g w [⟨lat, lon, h⟩] .zenith false true nprocs =
      some ([0], [0]) := by
  unfold delay_from_grid
  rw [if_neg Bool.false_ne_true]
  unfold hydrostatic_delay wet_delay
  rw [commonDelay_zenith g w.hydrostatic _ (by simp),
    commonDelay_zenith g w.wet _ (by simp)]
  simp only [List.map_cons, List.map_nil]
  rw [rayDelay_zenith_above g w.hydrostatic lat lon h habove,
    rayDelay_zenith_above g w.wet lat lon h habove]
  rfl

/-- C8 witness: the theorem applied at a concrete point 1 meter above the
reference height of the concrete geometry. -/
theorem c8_witness :
    geom0.zref < 101 ∧
    delay_from_grid geom0 w1 [⟨0, 0, 101⟩] .zenith false true 5 =
      some ([0], [0]) :=
  ⟨by decide, c8_above_zref_zero_delay geom0 w1 0 0 101 (by decide) 5⟩

/-- C10: for a Zenith query at a point whose height equals `zref` exactly,
the ray length is 0, the step count is 0, the sample sequence is empty for
every possible value of the (ill-defined) normalized direction — so the
0/0 direction numpy would produce is never used at any queried position —
and both returned delays are exactly 0. -/
theorem c10_zero_length_zenith (g : Geom) (w : Weather) (lat lon : ℚ)
    (nprocs : ℕ) :
    g.norm3 ((g.zref - g.zref) • zenithDir g lat lon) = 0 ∧
    sampleSteps (g.norm3 ((g.zref - g.zref) • zenithDir g lat lon)) = 0 ∧
    (∀ dir : Vec3, raySamplesWithDir g ⟨lat, lon, g.zref⟩
        ((g.zref - g.zref) • zenithDir g lat lon) dir = ⟨[], []⟩) ∧
    delay_from_grid g w [⟨lat, lon, g.zref⟩] .zenith false true nprocs =
      some ([0], [0]) := by
  have hnorm : g.norm3 ((g.zref - g.zref) • zenithDir g lat lon) = 0 := by
    rw [sub_self, g.norm3_smul, abs_zero, zero_mul]
  have hsteps0 : sampleSteps (0 : ℚ) = 0 := by
    unfold sampleSteps
    rw [zero_div, Int.ceil_zero]
    rfl
  have hdir : ∀ dir : Vec3, raySamplesWithDir g ⟨lat, lon, g.zref⟩
      ((g.zref - g.zref) • zenithDir g lat lon) dir = ⟨[], []⟩ := by
    intro dir
    rw [raySamplesWithDir_mk, hnorm, hsteps0, linspace_zero]
    unfold rayPositions
    simp [tooHigh]
  refine ⟨hnorm, by rw [hnorm, hsteps0], hdir, ?_⟩
  unfold delay_from_grid
  rw [if_neg Bool.false_ne_true]
  unfold hydrostatic_delay wet_delay
  rw [commonDelay_zenith g w.hydrostatic _ (by simp),
    commonDelay_zenith g w.wet _ (by simp)]
  simp only [List.map_cons, List.map_nil]
  have hz : ∀ d : Vec3 → ℚ, rayDelay g d ⟨lat, lon, g.zref⟩
      ((g.zref - g.zref) • zenithDir g lat lon) = 0 := by
    intro d
    unfold rayDelay raySamples
    rw [hdir (scaledLookVec g ((g.zref - g.zref) • zenithDir g lat lon))]
    show (1 / 1000000) * trapz (([] : List Vec3).map d) [] = 0
    simp [trapz]
  rw [hz w.hydrostatic, hz w.wet]
  rfl

/-- C1 witness: the even-count equivalence applied to a concrete one-point
batch with two workers (one nonempty slice per component). -/
theorem c1_witness :
    (2 % 2 = 0 ∧ 2 ≤ 2 ∧ 2 / 2 ≤ [(⟨0, 0, 70⟩ : LLA)].length ∧
      losWF .zenith true ([(⟨0, 0, 70⟩ : LLA)].length)) ∧
    delay_from_grid geom0 w1 [⟨0, 0, 70⟩] .zenith true true 2 =
      delay_from_grid geom0 w1 [⟨0, 0, 70⟩] .zenith false true 2 :=
  ⟨⟨rfl, by omega, by decide, rfl⟩,
    c1_parallel_equals_serial.1 geom0 w1 [⟨0, 0, 70⟩] .zenith true 2 rfl
      (by omega) (by decide) rfl⟩

/-- C2: with a constant atmospheric model returning `c` everywhere, the
delay for a Zenith ray of length L (start point L meters below the
reference height) is within `1e-6 * |c| * STEP` of `1e-6 * c * L` for every
positive L, and equals `1e-6 * c * L` exactly once L exceeds one sampling
step (in exact arithmetic the trapezoid rule is exact for constants; the
only deviation is the one-sample ray, whose integral is 0). -/
theorem c2_constant_model_zenith (g : Geom) (c L lat lon : ℚ) (hL : 0 < L) :
    ∃ dlt, commonDelay g (fun _ => c) [⟨lat, lon, g.zref - L⟩] .zenith true =
        some [dlt] ∧
      |dlt - 1 / 1000000 * c * L| ≤ 1 / 1000000 * |c| * STEP ∧
      (STEP < L → dlt = 1 / 1000000 * c * L) := by
  refine ⟨_, commonDelay_zenith_const g c lat lon L hL, ?_, ?_⟩
  all_goals
    have hn1 : 1 ≤ sampleSteps L := sampleSteps_pos L hL
    have hhead : (linspace 0 L (sampleSteps L)).head?.getD 0 = 0 :=
      linspace_headD 0 L _ hn1
    have hS : (0 : ℚ) < STEP := by norm_num [STEP]
  · rcases Nat.lt_or_ge (sampleSteps L) 2 with hlt | hge
    · have hn : sampleSteps L = 1 := by omega
      have hceil : Int.ceil (L / STEP) = 1 := by
        have hp : 0 < Int.ceil (L / STEP) := Int.ceil_pos.mpr (by positivity)
        unfold sampleSteps at hn
        omega
      have hL15 : L ≤ STEP := by
        have h1 : L / STEP ≤ ((1 : ℤ) : ℚ) := Int.ceil_le.mp (le_of_eq hceil)
        rw [Int.cast_one] at h1
        exact (div_le_one hS).mp h1
      have hlast : (linspace 0 L (sampleSteps L)).getLast?.getD 0 = 0 := by
        rw [hn, linspace_one]
        rfl
      rw [hhead, hlast]
      have hval : 1 / 1000000 * (c * ((0 : ℚ) - 0)) = 0 := by ring
      rw [hval, zero_sub, abs_neg]
      have habs : |1 / 1000000 * c * L| = 1 / 1000000 * |c| * L := by
        rw [abs_mul, abs_mul]
        rw [abs_of_nonneg (by norm_num : (0 : ℚ) ≤ 1 / 1000000),
          abs_of_nonneg hL.le]
      rw [habs]
      gcongr
    · have hlast := linspace_getLast 0 L (sampleSteps L) hge
      rw [hhead, hlast]
      have hval : 1 / 1000000 * (c * (L - 0)) = 1 / 1000000 * c * L := by ring
      rw [hval, sub_self, abs_zero]
      positivity
  · intro hSL
    have hge : 2 ≤ sampleSteps L := by
      unfold sampleSteps
      have h2 : (2 : ℤ) ≤ Int.ceil (L / STEP) := by
        rw [Int.le_ceil_iff]
        push_cast
        rw [lt_div_iff₀ hS]
        linarith
      omega
    have hlast := linspace_getLast 0 L (sampleSteps L) hge
    rw [hhead, hlast]
    ring

/-- C2 witness: the theorem applied with c = 2 and L = 30 in the concrete
geometry. -/
theorem c2_witness :
    (0 : ℚ) < 30 ∧
    ∃ dlt, commonDelay geom0 (fun _ => 2) [⟨0, 0, geom0.zref - 30⟩]
        .zenith true = some [dlt] ∧
      |dlt - 1 / 1000000 * 2 * 30| ≤ 1 / 1000000 * |(2 : ℚ)| * STEP ∧
      (STEP < 30 → dlt = 1 / 1000000 * 2 * 30) :=
  ⟨by norm_num, c2_constant_model_zenith geom0 2 30 0 0 (by norm_num)⟩

/-- C3: for an even worker count of at least 2, the parallel dispatch gives
each component `nprocs / 2` slices built from the same `hindices`
boundaries, and these slices are contiguous, cover every index below N
exactly once, and have balanced sizes (first conjunct); but for odd worker
counts — also covered by the claim — the wet-job generator indexes past the
end of `hindices` and job construction raises IndexError instead of
producing a partition (second and third conjuncts). -/
theorem c3_partition_tiles :
    (∀ nprocs N : ℕ, nprocs % 2 = 0 → 2 ≤ nprocs →
      buildJobs nprocs N = some
        (((List.range (nprocs / 2)).map (fun i =>
            (JobType.hydro, hindex N (nprocs / 2) i,
              hindex N (nprocs / 2) (i + 1))))
         ++ ((List.range (nprocs / 2)).map (fun i =>
            (JobType.wet, hindex N (nprocs / 2) i,
              hindex N (nprocs / 2) (i + 1))))) ∧
        tilesExactly N (nprocs / 2) ∧ sizesBalanced N (nprocs / 2)) ∧
    buildJobs 1 5 = none ∧ buildJobs 3 10 = none := by
  refine ⟨?_, by decide, by decide⟩
  intro nprocs N he h2
  exact ⟨buildJobs_even nprocs N he h2, hindex_tiles N _ (by omega),
    hindex_sizes N _ (by omega)⟩

/-- C3 witness: the partition statement at 4 workers and 10 points. -/
theorem c3_witness :
    (4 % 2 = 0 ∧ 2 ≤ 4) ∧
    (buildJobs 4 10 = some
        (((List.range (4 / 2)).map (fun i =>
            (JobType.hydro, hindex 10 (4 / 2) i, hindex 10 (4 / 2) (i + 1))))
         ++ ((List.range (4 / 2)).map (fun i =>
            (JobType.wet, hindex 10 (4 / 2) i, hindex 10 (4 / 2) (i + 1))))) ∧
      tilesExactly 10 (4 / 2) ∧ sizesBalanced 10 (4 / 2)) :=
  ⟨⟨rfl, by omega⟩, c3_partition_tiles.1 4 10 rfl (by omega)⟩

theorem getD_zipWith (f : ℚ → ℚ → ℚ) :
    ∀ (l1 l2 : List ℚ) (i : ℕ), i < l1.length → i < l2.length →
      (List.zipWith f l1 l2).getD i 0 = f (l1.getD i 0) (l2.getD i 0)
  | [], _, i, h1, _ => by simp at h1
  | _ :: _, [], i, _, h2 => by simp at h2
  | a :: l1, b :: l2, 0, _, _ => by simp
  | a :: l1, b :: l2, i + 1, h1, h2 => by
      simp only [List.zipWith_cons_cons, List.getD_cons_succ]
      exact getD_zipWith f l1 l2 i (by simpa using h1) (by simpa using h2)

/-- C4: in projection mode the look-vector input is one scalar per point
(the cosine of the incidence angle), and on a nonempty batch (an empty one
raises the empty-concatenate ValueError of src/delay.py line 87 in either
mode) the returned delays are exactly the Zenith-geometry delays of the
same points multiplied per point by the correction factor
`1 / cosd(incidence)`. -/
theorem c4_projection_is_scaled_zenith (g : Geom) (d : Vec3 → ℚ)
    (pts : List LLA) (cs : List ℚ) (hlen : cs.length = pts.length)
    (hne : pts ≠ []) :
    ∃ zd, commonDelay g d pts .zenith true = some zd ∧
      commonDelay g d pts (.scalars cs) false =
        some (List.zipWith (fun dlt c => dlt * (1 / g.cosd c)) zd cs) ∧
      ∀ i, i < pts.length →
        (List.zipWith (fun dlt c => dlt * (1 / g.cosd c)) zd cs).getD i 0 =
          zd.getD i 0 * (1 / g.cosd (cs.getD i 0)) := by
  refine ⟨_, commonDelay_zenith g d pts hne, commonDelay_scalars g d pts cs hne,
    ?_⟩
  intro i hi
  exact getD_zipWith _ _ cs i (by simpa using hi) (by omega)

/-- C4 witness: the projection-mode correction at one concrete point and
one concrete incidence scalar. -/
theorem c4_witness :
    (([(1 : ℚ)].length = [(⟨0, 0, 70⟩ : LLA)].length) ∧
      [(⟨0, 0, 70⟩ : LLA)] ≠ []) ∧
    ∃ zd, commonDelay geom0 w1.hydrostatic [⟨0, 0, 70⟩] .zenith true =
        some zd ∧
      commonDelay geom0 w1.hydrostatic [⟨0, 0, 70⟩] (.scalars [1]) false =
        some (List.zipWith (fun dlt c => dlt * (1 / geom0.cosd c)) zd [1]) ∧
      ∀ i, i < [(⟨0, 0, 70⟩ : LLA)].length →
        (List.zipWith (fun dlt c => dlt * (1 / geom0.cosd c)) zd [1]).getD i 0 =
          zd.getD i 0 * (1 / geom0.cosd (([(1 : ℚ)]).getD i 0)) :=
  ⟨⟨rfl, by simp⟩, c4_projection_is_scaled_zenith geom0 w1.hydrostatic
    [⟨0, 0, 70⟩] [1] rfl (by simp)⟩

theorem sampleSteps_10 : sampleSteps 10 = 1 := by
  unfold sampleSteps
  have hceil : Int.ceil ((10 : ℚ) / STEP) = 1 := by
    rw [Int.ceil_eq_iff]
    norm_num [STEP]
  rw [hceil]
  rfl

/-- C5 counterexample: for a ray of length 30 the sampler produces
`ceil(30/15) = 2` samples `[0, 30]`, whose spacing 30 exceeds STEP = 15
(refuting "spacing at most STEP"), and for a ray of length 10 it produces
the single sample `[0]`, which does not include the endpoint 10 (refuting
"from 0 to length inclusive" for every positive length). -/
theorem c5_counterexample :
    sampleParams 30 = [0, 30] ∧ ¬ ((30 : ℚ) - 0 ≤ STEP) ∧
    sampleParams 10 = [0] := by
  refine ⟨?_, by norm_num [STEP], ?_⟩
  · unfold sampleParams
    rw [sampleSteps_30, linspace_0_30_2]
  · unfold sampleParams
    rw [sampleSteps_10, linspace_one]

/-- C5 amended: the sampler generates exactly `ceil(L/STEP)` evenly spaced
parameters starting at 0; when the count is at least 2 they end exactly at
L and consecutive samples are `L/(count-1)` apart, which is bounded by
`2 * STEP` (not STEP); when the count is 1 (0 < L ≤ STEP) the only sample
is 0 and the endpoint is not included. -/
theorem c5_amended_sampling (L : ℚ) (hL : 0 < L) :
    (sampleParams L).length = sampleSteps L ∧
    (sampleParams L).head? = some 0 ∧
    (2 ≤ sampleSteps L →
      (sampleParams L).getLast?.getD 0 = L ∧
      (∀ i, i + 1 < sampleSteps L →
        (sampleParams L).getD (i + 1) 0 - (sampleParams L).getD i 0 =
          L / ((sampleSteps L : ℚ) - 1)) ∧
      L / ((sampleSteps L : ℚ) - 1) ≤ 2 * STEP) := by
  have hn1 : 1 ≤ sampleSteps L := sampleSteps_pos L hL
  refine ⟨linspace_length 0 L _, linspace_head 0 L _ hn1, ?_⟩
  intro hge
  have hcast2 : (2 : ℚ) ≤ (sampleSteps L : ℚ) := by exact_mod_cast hge
  have hne : ((sampleSteps L : ℚ) - 1) ≠ 0 := by
    intro hc
    linarith
  have hpos : (0 : ℚ) < (sampleSteps L : ℚ) - 1 := by linarith
  refine ⟨linspace_getLast 0 L _ hge, ?_, ?_⟩
  · intro i hi
    unfold sampleParams
    rw [linspace_getD 0 L _ (i + 1) hge hi, linspace_getD 0 L _ i hge (by omega)]
    push_cast
    field_simp
    ring
  · have hS : (0 : ℚ) < STEP := by norm_num [STEP]
    have hLle : L ≤ (sampleSteps L : ℚ) * STEP := by
      have h1 : L / STEP ≤ ((Int.ceil (L / STEP) : ℤ) : ℚ) := Int.le_ceil _
      have h2 : ((Int.ceil (L / STEP) : ℤ) : ℚ) = (sampleSteps L : ℚ) := by
        unfold sampleSteps
        have h3 : 0 ≤ Int.ceil (L / STEP) := le_of_lt (Int.ceil_pos.mpr (by positivity))
        exact_mod_cast congrArg (fun z : ℤ => (z : ℚ)) (Int.toNat_of_nonneg h3).symm
      rw [h2] at h1
      calc L = L / STEP * STEP := by field_simp
        _ ≤ (sampleSteps L : ℚ) * STEP := by
            exact mul_le_mul_of_nonneg_right h1 hS.le
    rw [div_le_iff₀ hpos]
    have hSTEP : STEP = (15 : ℚ) := by norm_num [STEP]
    rw [hSTEP] at hLle ⊢
    linarith

/-- C5 witness: the amended sampling facts applied at ray length 45. -/
theorem c5_witness :
    (0 : ℚ) < 45 ∧
    ((sampleParams 45).length = sampleSteps 45 ∧
      (sampleParams 45).head? = some 0 ∧
      (2 ≤ sampleSteps 45 →
        (sampleParams 45).getLast?.getD 0 = 45 ∧
        (∀ i, i + 1 < sampleSteps 45 →
          (sampleParams 45).getD (i + 1) 0 - (sampleParams 45).getD i 0 =
            45 / ((sampleSteps 45 : ℚ) - 1)) ∧
        45 / ((sampleSteps 45 : ℚ) - 1) ≤ 2 * STEP)) :=
  ⟨by norm_num, c5_amended_sampling 45 (by norm_num)⟩

theorem raySamplesWithDir_def (g : Geom) (pt : LLA) (v dir : Vec3) :
    raySamplesWithDir g pt v dir =
      ⟨(linspace 0 (g.norm3 v) (sampleSteps (g.norm3 v))).take
          (tooHigh g (rayPositions (g.lla2ecef pt.lat pt.lon pt.ht) dir
            (linspace 0 (g.norm3 v) (sampleSteps (g.norm3 v))))),
        (rayPositions (g.lla2ecef pt.lat pt.lon pt.ht) dir
            (linspace 0 (g.norm3 v) (sampleSteps (g.norm3 v)))).take
          (tooHigh g (rayPositions (g.lla2ecef pt.lat pt.lon pt.ht) dir
            (linspace 0 (g.norm3 v) (sampleSteps (g.norm3 v)))))⟩ :=
  rfl

/-- C6: for every ray, the kept samples are exactly the prefix of the
generated sample sequence ending just before the first sample whose
converted geodetic height exceeds `zref`: all samples are kept when none
exceeds `zref`, the kept prefix is empty when the first sample already
exceeds it, every sample strictly before the cut is at or below `zref`,
the sample at the cut (when one exists) is above `zref`, and consequently
every kept sample has height at most `zref`. -/
theorem c6_truncation_before_first_high (g : Geom) (pt : LLA) (v dir : Vec3) :
    (raySamplesWithDir g pt v dir).tKept =
      (linspace 0 (g.norm3 v) (sampleSteps (g.norm3 v))).take
        (tooHigh g (rayPositions (g.lla2ecef pt.lat pt.lon pt.ht) dir
          (linspace 0 (g.norm3 v) (sampleSteps (g.norm3 v))))) ∧
    (raySamplesWithDir g pt v dir).posKept =
      (rayPositions (g.lla2ecef pt.lat pt.lon pt.ht) dir
          (linspace 0 (g.norm3 v) (sampleSteps (g.norm3 v)))).take
        (tooHigh g (rayPositions (g.lla2ecef pt.lat pt.lon pt.ht) dir
          (linspace 0 (g.norm3 v) (sampleSteps (g.norm3 v))))) ∧
    ((∀ p ∈ rayPositions (g.lla2ecef pt.lat pt.lon pt.ht) dir
        (linspace 0 (g.norm3 v) (sampleSteps (g.norm3 v))),
        g.heightOf p ≤ g.zref) →
      tooHigh g (rayPositions (g.lla2ecef pt.lat pt.lon pt.ht) dir
        (linspace 0 (g.norm3 v) (sampleSteps (g.norm3 v)))) =
        (rayPositions (g.lla2ecef pt.lat pt.lon pt.ht) dir
          (linspace 0 (g.norm3 v) (sampleSteps (g.norm3 v)))).length) ∧
    (∀ p rest, rayPositions (g.lla2ecef pt.lat pt.lon pt.ht) dir
        (linspace 0 (g.norm3 v) (sampleSteps (g.norm3 v))) = p :: rest →
      g.zref < g.heightOf p →
      tooHigh g (rayPositions (g.lla2ecef pt.lat pt.lon pt.ht) dir
        (linspace 0 (g.norm3 v) (sampleSteps (g.norm3 v)))) = 0) ∧
    (∀ i, i < tooHigh g (rayPositions (g.lla2ecef pt.lat pt.lon pt.ht) dir
        (linspace 0 (g.norm3 v) (sampleSteps (g.norm3 v)))) →
      ¬ g.zref < g.heightOf ((rayPositions (g.lla2ecef pt.lat pt.lon pt.ht)
        dir (linspace 0 (g.norm3 v) (sampleSteps (g.norm3 v)))).getD i
          ⟨0, 0, 0⟩)) ∧
    (tooHigh g (rayPositions (g.lla2ecef pt.lat pt.lon pt.ht) dir
        (linspace 0 (g.norm3 v) (sampleSteps (g.norm3 v)))) <
      (rayPositions (g.lla2ecef pt.lat pt.lon pt.ht) dir
        (linspace 0 (g.norm3 v) (sampleSteps (g.norm3 v)))).length →
      g.zref < g.heightOf ((rayPositions (g.lla2ecef pt.lat pt.lon pt.ht)
        dir (linspace 0 (g.norm3 v) (sampleSteps (g.norm3 v)))).getD
          (tooHigh g (rayPositions (g.lla2ecef pt.lat pt.lon pt.ht) dir
            (linspace 0 (g.norm3 v) (sampleSteps (g.norm3 v))))) ⟨0, 0, 0⟩)) ∧
    (∀ p ∈ (raySamplesWithDir g pt v dir).posKept, g.heightOf p ≤ g.zref) := by
  set pos := rayPositions (g.lla2ecef pt.lat pt.lon pt.ht) dir
    (linspace 0 (g.norm3 v) (sampleSteps (g.norm3 v))) with hpos
  refine ⟨by rw [raySamplesWithDir_def], by rw [raySamplesWithDir_def], ?_, ?_, ?_, ?_, ?_⟩
  · intro hall
    exact tooHigh_eq_length g pos (fun p hp => not_lt.mpr (hall p hp))
  · intro p rest heq hhigh
    rw [heq]
    exact tooHigh_cons_high g p rest hhigh
  · exact tooHigh_below g pos
  · exact tooHigh_first_high g pos
  · intro p hp
    have hkept : (raySamplesWithDir g pt v dir).posKept =
        pos.take (tooHigh g pos) := rfl
    rw [hkept] at hp
    obtain ⟨i, hi, hpi⟩ := List.getElem_of_mem hp
    simp only [List.length_take] at hi
    have hm1 : i < tooHigh g pos := by omega
    have hm2 : i < pos.length := by omega
    have h5 := tooHigh_below g pos i hm1
    rw [List.getD_eq_getElem pos _ hm2] at h5
    have hpe : p = pos[i] := by
      rw [← hpi]
      exact List.getElem_take pos
    rw [hpe]
    exact not_lt.mp h5

/-- C6 witness: the truncation facts at a concrete ray whose two samples
both stay below the reference height, so the whole sequence is kept. -/
theorem c6_witness :
    (∀ p ∈ rayPositions (geom0.lla2ecef 0 0 70) ⟨1, 0, 0⟩
        (linspace 0 (geom0.norm3 ⟨30, 0, 0⟩)
          (sampleSteps (geom0.norm3 ⟨30, 0, 0⟩))),
        geom0.heightOf p ≤ geom0.zref) ∧
    (raySamplesWithDir geom0 ⟨0, 0, 70⟩ ⟨30, 0, 0⟩ ⟨1, 0, 0⟩).posKept =
      (rayPositions (geom0.lla2ecef 0 0 70) ⟨1, 0, 0⟩
          (linspace 0 (geom0.norm3 ⟨30, 0, 0⟩)
            (sampleSteps (geom0.norm3 ⟨30, 0, 0⟩)))).take
        (tooHigh geom0 (rayPositions (geom0.lla2ecef 0 0 70) ⟨1, 0, 0⟩
          (linspace 0 (geom0.norm3 ⟨30, 0, 0⟩)
            (sampleSteps (geom0.norm3 ⟨30, 0, 0⟩))))) ∧
    tooHigh geom0 (rayPositions (geom0.lla2ecef 0 0 70) ⟨1, 0, 0⟩
        (linspace 0 (geom0.norm3 ⟨30, 0, 0⟩)
          (sampleSteps (geom0.norm3 ⟨30, 0, 0⟩)))) =
      (rayPositions (geom0.lla2ecef 0 0 70) ⟨1, 0, 0⟩
        (linspace 0 (geom0.norm3 ⟨30, 0, 0⟩)
          (sampleSteps (geom0.norm3 ⟨30, 0, 0⟩)))).length := by
  have hn : geom0.norm3 ⟨30, 0, 0⟩ = 30 := by
    show |(30 : ℚ)| = 30
    norm_num
  have hall : ∀ p ∈ rayPositions (geom0.lla2ecef 0 0 70) ⟨1, 0, 0⟩
      (linspace 0 (geom0.norm3 ⟨30, 0, 0⟩)
        (sampleSteps (geom0.norm3 ⟨30, 0, 0⟩))),
      geom0.heightOf p ≤ geom0.zref := by
    intro p hp
    rw [hn, sampleSteps_30, linspace_0_30_2] at hp
    have hl : geom0.lla2ecef 0 0 70 = ⟨70, 0, 0⟩ := rfl
    rw [hl] at hp
    simp only [rayPositions, List.map_cons, List.map_nil, List.mem_cons,
      List.not_mem_nil, or_false] at hp
    rcases hp with rfl | rfl
    · show (70 : ℚ) + 0 * 1 ≤ 100
      norm_num
    · show (70 : ℚ) + 30 * 1 ≤ 100
      norm_num
  exact ⟨hall, (c6_truncation_before_first_high geom0 ⟨0, 0, 70⟩ ⟨30, 0, 0⟩ ⟨1, 0, 0⟩).2.1,
    (c6_truncation_before_first_high geom0 ⟨0, 0, 70⟩ ⟨30, 0, 0⟩ ⟨1, 0, 0⟩).2.2.1 hall⟩

theorem queryAll_boom_wet :
    ∀ l : List Vec3, l ≠ [] → queryAll wBoom.wet l = .error "boom"
  | [], h => absurd rfl h
  | _ :: _, _ => rfl

theorem queryAll_boom_hydro :
    ∀ l : List Vec3, queryAll wBoom.hydrostatic l = .ok (l.map (fun _ => 1))
  | [] => rfl
  | p :: ps => by
      show (do
        let v ← wBoom.hydrostatic p
        let rest ← queryAll wBoom.hydrostatic ps
        pure (v :: rest)) = Except.ok ((p :: ps).map (fun _ => 1))
      rw [queryAll_boom_hydro ps]
      rfl

theorem posKept_concrete :
    raySamples geom0 ⟨0, 0, geom0.zref - 30⟩
      ((geom0.zref - (geom0.zref - 30)) • zenithDir geom0 0 0) =
      ⟨linspace 0 30 (sampleSteps 30),
       rayPositions (geom0.lla2ecef 0 0 (geom0.zref - 30)) (zenithDir geom0 0 0)
         (linspace 0 30 (sampleSteps 30))⟩ := by
  have hv : geom0.zref - (geom0.zref - 30) = (30 : ℚ) := by ring
  rw [hv]
  exact raySamples_zenith_all_kept geom0 0 0 30 (by norm_num)

theorem samples_concrete :
    ([(⟨0, 0, geom0.zref - 30⟩ : LLA)].zip
        (zenithVecs geom0 [⟨0, 0, geom0.zref - 30⟩])).map
      (fun pv => raySamples geom0 pv.1 pv.2) =
      [⟨linspace 0 30 (sampleSteps 30),
        rayPositions (geom0.lla2ecef 0 0 (geom0.zref - 30))
          (zenithDir geom0 0 0) (linspace 0 30 (sampleSteps 30))⟩] := by
  show [raySamples geom0 ⟨0, 0, geom0.zref - 30⟩
    ((geom0.zref - (geom0.zref - 30)) • zenithDir geom0 0 0)] = _
  rw [posKept_concrete]

theorem flatten_concrete :
    ((([(⟨0, 0, geom0.zref - 30⟩ : LLA)].zip
        (zenithVecs geom0 [⟨0, 0, geom0.zref - 30⟩])).map
      (fun pv => raySamples geom0 pv.1 pv.2)).map RaySamples.posKept).flatten =
      rayPositions (geom0.lla2ecef 0 0 (geom0.zref - 30))
        (zenithDir geom0 0 0) (linspace 0 30 (sampleSteps 30)) := by
  rw [samples_concrete]
  simp

theorem positions_concrete_ne_nil :
    rayPositions (geom0.lla2ecef 0 0 (geom0.zref - 30)) (zenithDir geom0 0 0)
      (linspace 0 30 (sampleSteps 30)) ≠ [] := by
  rw [sampleSteps_30, linspace_0_30_2]
  simp [rayPositions]

theorem delaysForE_wet_boom :
    delaysForE geom0 wBoom.wet [⟨0, 0, geom0.zref - 30⟩]
      (zenithVecs geom0 [⟨0, 0, geom0.zref - 30⟩]) =
      .error (.modelError "boom") := by
  simp only [delaysForE]
  rw [if_neg (by simp)]
  rw [flatten_concrete, queryAll_boom_wet _ positions_concrete_ne_nil]
  rfl

theorem delaysForE_hydro_ok :
    ∃ r, delaysForE geom0 wBoom.hydrostatic [⟨0, 0, geom0.zref - 30⟩]
      (zenithVecs geom0 [⟨0, 0, geom0.zref - 30⟩]) = .ok r := by
  simp only [delaysForE]
  rw [if_neg (by simp)]
  rw [flatten_concrete, queryAll_boom_hydro]
  exact ⟨_, rfl⟩

theorem runJobE_boom_wet :
    runJobE geom0 wBoom [⟨0, 0, geom0.zref - 30⟩] .zenith true
      (JobType.wet, 0, 1) = .error (.modelError "boom") := by
  show delaysForE geom0 wBoom.wet [⟨0, 0, geom0.zref - 30⟩]
    (zenithVecs geom0 [⟨0, 0, geom0.zref - 30⟩]) = _
  exact delaysForE_wet_boom

theorem runJobE_boom_hydro :
    ∃ r, runJobE geom0 wBoom [⟨0, 0, geom0.zref - 30⟩] .zenith true
      (JobType.hydro, 0, 1) = .ok r := by
  obtain ⟨r, hr⟩ := delaysForE_hydro_ok
  refine ⟨r, ?_⟩
  show delaysForE geom0 wBoom.hydrostatic [⟨0, 0, geom0.zref - 30⟩]
    (zenithVecs geom0 [⟨0, 0, geom0.zref - 30⟩]) = _
  exact hr

theorem sequenceOpts_none_of_mem :
    ∀ ls : List (Option (List ℚ)), none ∈ ls → sequenceOpts ls = none
  | [], h => by simp at h
  | none :: rest, _ => rfl
  | some x :: rest, h => by
      have hr : none ∈ rest := by simpa using h
      show (sequenceOpts rest).map (fun l => x :: l) = none
      rw [sequenceOpts_none_of_mem rest hr]
      rfl

theorem concatOptE_none (ls : List (Option (List ℚ))) (hne : ls ≠ [])
    (hmem : none ∈ ls) : concatOptE ls = .error .concatNone := by
  unfold concatOptE
  rw [if_neg (by simpa [List.isEmpty_iff] using hne)]
  rw [sequenceOpts_none_of_mem ls hmem]

theorem concatOptE_cases (ls : List (Option (List ℚ))) (hne : ls ≠ []) :
    concatOptE ls = .error .concatNone ∨ ∃ r, concatOptE ls = .ok r := by
  unfold concatOptE
  rw [if_neg (by simpa [List.isEmpty_iff] using hne)]
  cases hs : sequenceOpts ls with
  | none => exact Or.inl rfl
  | some xss => exact Or.inr ⟨xss.flatten, rfl⟩

/-- C7 counterexample: with a wet model that always raises (`wBoom`), the
parallel run on one point with two workers fails with the concatenate
error (`np.concatenate` meeting the `None` left by the dead thread,
src/delay.py lines 152-161 and 224-225), while the serial run re-raises
the model's own exception; the two errors differ, so the worker's
exception does not propagate to the parallel caller. -/
theorem c7_counterexample :
    delay_from_grid_E geom0 wBoom [⟨0, 0, geom0.zref - 30⟩] .zenith true true 2 =
      .error .concatNone ∧
    delay_from_grid_E geom0 wBoom [⟨0, 0, geom0.zref - 30⟩] .zenith false true 2 =
      .error (.modelError "boom") ∧
    Except.error PyErr.concatNone ≠
      (Except.error (PyErr.modelError "boom") : Except PyErr (List ℚ × List ℚ)) := by
  refine ⟨?_, ?_, by simp⟩
  · unfold delay_from_grid_E
    rw [if_pos rfl,
      show buildJobs 2 ([(⟨0, 0, geom0.zref - 30⟩ : LLA)].length) =
        some [(JobType.hydro, 0, 1), (JobType.wet, 0, 1)] from by decide]
    show (do
        let hydro ← concatOptE (([(JobType.hydro, (0 : ℕ), (1 : ℕ)),
            (JobType.wet, 0, 1)].map
          (fun jb => (runJobE geom0 wBoom [⟨0, 0, geom0.zref - 30⟩] .zenith true
            jb).toOption)).take (2 / 2))
        let wet ← concatOptE (([(JobType.hydro, (0 : ℕ), (1 : ℕ)),
            (JobType.wet, 0, 1)].map
          (fun jb => (runJobE geom0 wBoom [⟨0, 0, geom0.zref - 30⟩] .zenith true
            jb).toOption)).drop (2 / 2))
        pure (hydro, wet)) = Except.error PyErr.concatNone
    obtain ⟨r, hr⟩ := runJobE_boom_hydro
    rw [show ([(JobType.hydro, (0 : ℕ), (1 : ℕ)), (JobType.wet, 0, 1)].map
        (fun jb => (runJobE geom0 wBoom [⟨0, 0, geom0.zref - 30⟩] .zenith true
          jb).toOption)) =
      [(runJobE geom0 wBoom [⟨0, 0, geom0.zref - 30⟩] .zenith true
          (JobType.hydro, 0, 1)).toOption,
       (runJobE geom0 wBoom [⟨0, 0, geom0.zref - 30⟩] .zenith true
          (JobType.wet, 0, 1)).toOption] from rfl]
    rw [hr, runJobE_boom_wet]
    rfl
  · unfold delay_from_grid_E
    rw [if_neg (by simp)]
    show (do
        let hydro ← delaysForE geom0 wBoom.hydrostatic [⟨0, 0, geom0.zref - 30⟩]
          (zenithVecs geom0 [⟨0, 0, geom0.zref - 30⟩])
        let wet ← delaysForE geom0 wBoom.wet [⟨0, 0, geom0.zref - 30⟩]
          (zenithVecs geom0 [⟨0, 0, geom0.zref - 30⟩])
        pure (hydro, wet)) = Except.error (PyErr.modelError "boom")
    obtain ⟨r, hr⟩ := delaysForE_hydro_ok
    rw [hr, delaysForE_wet_boom]
    rfl

/-- C7 (amended): in the parallel path, a worker whose job raises leaves
`None` in the answer list (`_parmap`, src/delay.py lines 135-161, catches
nothing: the Thread dies and the slot keeps its initial `None`), so
whenever any built job fails, `delay_from_grid` raises the
`np.concatenate`-over-`None` error (src/delay.py lines 224-225) — the
worker's own exception never propagates, and no partial results are
returned. -/
theorem c7_worker_exception_swallowed (g : Geom) (w : WeatherE)
    (pts : List LLA) (los : LOS) (raytrace : Bool) (nprocs : ℕ)
    (jobs : List (JobType × ℕ × ℕ)) (j : JobType × ℕ × ℕ) (e : PyErr)
    (hb : buildJobs nprocs pts.length = some jobs)
    (hj : j ∈ jobs)
    (hfail : runJobE g w pts los raytrace j = .error e) :
    delay_from_grid_E g w pts los true raytrace nprocs =
      .error .concatNone := by
  have hb' := hb
  simp only [buildJobs] at hb'
  by_cases hwp : nprocs - nprocs / 2 ≤ nprocs / 2
  case neg =>
    rw [if_neg hwp] at hb'
    exact absurd hb' (by simp)
  rw [if_pos hwp] at hb'
  have hjobs := Option.some.inj hb'
  have hlen : jobs.length = nprocs / 2 + (nprocs - nprocs / 2) := by
    rw [← hjobs]; simp
  obtain ⟨k, hk, hjk⟩ := List.getElem_of_mem hj
  unfold delay_from_grid_E
  rw [if_pos rfl, hb]
  show (do
      let hydro ← concatOptE ((jobs.map
        (fun jb => (runJobE g w pts los raytrace jb).toOption)).take (nprocs / 2))
      let wet ← concatOptE ((jobs.map
        (fun jb => (runJobE g w pts los raytrace jb).toOption)).drop (nprocs / 2))
      pure (hydro, wet)) = Except.error PyErr.concatNone
  set results := jobs.map
    (fun jb => (runJobE g w pts los raytrace jb).toOption) with hres
  have hrlen : results.length = jobs.length := by rw [hres]; simp
  have hkm : k < (jobs.map
      (fun jb => (runJobE g w pts los raytrace jb).toOption)).length := by
    simpa using hk
  have hrk0 : (jobs.map
      (fun jb => (runJobE g w pts los raytrace jb).toOption))[k] = none := by
    rw [List.getElem_map, hjk, hfail]
    rfl
  have hk2 : k < results.length := by omega
  have hrk : results[k] = none := hrk0
  have hp1 : 1 ≤ nprocs / 2 := by omega
  rcases Nat.lt_or_ge k (nprocs / 2) with hlt | hge
  · have h1 : k < (results.take (nprocs / 2)).length := by
      rw [List.length_take]; omega
    have h2 : (results.take (nprocs / 2))[k] = none := by
      rw [List.getElem_take]; exact hrk
    have hmem : none ∈ results.take (nprocs / 2) := h2 ▸ List.getElem_mem h1
    have hne : results.take (nprocs / 2) ≠ [] :=
      List.ne_nil_of_length_pos (by rw [List.length_take]; omega)
    rw [concatOptE_none _ hne hmem]
    rfl
  · obtain ⟨m, rfl⟩ := Nat.exists_eq_add_of_le hge
    have h1 : m < (results.drop (nprocs / 2)).length := by
      rw [List.length_drop]; omega
    have h2 : (results.drop (nprocs / 2))[m] = none := by
      rw [List.getElem_drop]; exact hrk
    have hmemd : none ∈ results.drop (nprocs / 2) := h2 ▸ List.getElem_mem h1
    have hdne : results.drop (nprocs / 2) ≠ [] :=
      List.ne_nil_of_length_pos (by rw [List.length_drop]; omega)
    have htne : results.take (nprocs / 2) ≠ [] :=
      List.ne_nil_of_length_pos (by rw [List.length_take]; omega)
    rcases concatOptE_cases _ htne with hcc | ⟨r, hok⟩
    · rw [hcc]
      rfl
    · rw [hok, concatOptE_none _ hdne hmemd]
      rfl

/-- Witness for C7: on one grid point with two workers and a wet model
that always raises, the job list is built, the wet job is in it and
fails with the model's error, and the amended theorem then yields the
concatenate error for the parallel call. -/
theorem c7_witness :
    (buildJobs 2 ([(⟨0, 0, geom0.zref - 30⟩ : LLA)].length) =
        some [(JobType.hydro, 0, 1), (JobType.wet, 0, 1)] ∧
      (JobType.wet, (0 : ℕ), (1 : ℕ)) ∈
        [(JobType.hydro, (0 : ℕ), (1 : ℕ)), (JobType.wet, 0, 1)] ∧
      runJobE geom0 wBoom [⟨0, 0, geom0.zref - 30⟩] .zenith true
        (JobType.wet, 0, 1) = .error (.modelError "boom")) ∧
    delay_from_grid_E geom0 wBoom [⟨0, 0, geom0.zref - 30⟩] .zenith true true 2 =
      .error .concatNone :=
  ⟨⟨by decide, by decide, runJobE_boom_wet⟩,
    c7_worker_exception_swallowed geom0 wBoom [⟨0, 0, geom0.zref - 30⟩]
      .zenith true 2 [(JobType.hydro, 0, 1), (JobType.wet, 0, 1)]
      (JobType.wet, 0, 1) (.modelError "boom") (by decide) (by decide)
      runJobE_boom_wet⟩

/-- C9 (code bug): `delay_from_files` rejects mismatched raster shapes
before consulting the weather model at all (the result is the same
ValueError for every model `w`), but the message it raises is one fixed
string with no digit in it: only the first of the three adjacent source
literals carries the `f` prefix (src/delay.py lines 256-258), so the
shape placeholders are never interpolated and the error names no actual
shapes. -/
theorem c9_shape_mismatch_message (w : WeatherE) (parallel raytrace : Bool)
    (nprocs : ℕ) (lat lon ht : Raster)
    (hmis : ¬(lat.shape = lon.shape ∧ lon.shape = ht.shape)) :
    delay_from_files geom0 w lat lon ht parallel raytrace nprocs =
      .error (.valueError delayFromFilesMsg) ∧
    delayFromFilesMsg.data.all (fun ch => !ch.isDigit) = true := by
  refine ⟨?_, by decide⟩
  unfold delay_from_files
  rw [if_neg hmis]

/-- Witness for C9: a 10 by 10 latitude raster against a 5 by 5 longitude
raster trips the shape check, and the raised message is the constant,
digit-free string. -/
theorem c9_witness :
    ¬((Raster.mk [10, 10] []).shape = (Raster.mk [5, 5] []).shape ∧
        (Raster.mk [5, 5] []).shape = (Raster.mk [10, 10] []).shape) ∧
      (delay_from_files geom0 wBoom (Raster.mk [10, 10] []) (Raster.mk [5, 5] [])
          (Raster.mk [10, 10] []) true true 4 =
        .error (.valueError delayFromFilesMsg) ∧
      delayFromFilesMsg.data.all (fun ch => !ch.isDigit) = true) :=
  ⟨by decide, c9_shape_mismatch_message wBoom true true 4 _ _ _ (by decide)⟩
